import Mathlib

/-!
# ape-ecs: the component registry and the staging buffer of systems

A shallow embedding of `src/componentregistry.js` and `src/system.js`.

* A JavaScript `Map` is modelled as an insertion-ordered association list with at most one
  entry per key (`mapGet`, `mapSet`).
* The registry keeps `types` in a plain object, not in a `Map`. Its own keys are modelled as an
  association list as well, and the two names for which a plain object differs from a
  dictionary are modelled as the engine treats them: assigning the key `__proto__` replaces the
  prototype of the object and creates no own key (`typesAssign`), and an own key
  `hasOwnProperty` shadows the method that line 50 calls (`typesHasOwnProperty`).
* A JavaScript `Set` is modelled as an insertion-ordered list without repetition (`setAdd`).
* Component classes and worlds are mutable objects that the registry only holds references
  to, so they live in two heaps (`Runtime.klass`, `Runtime.world`) next to the registry.
* `componentNum` is a BigInt in the source, hence an unbounded `Nat` here.
* A call that throws keeps every mutation made before the `throw`; an `Outcome` therefore
  always carries the state in which the call ended, together with the error, if any.
-/

namespace ApeEcs

/-! ## Dictionaries and sets -/

/-- Value stored under `key`, if any (`Map.prototype.get`, property read). -/
def mapGet {V : Type} : List (String × V) → String → Option V
  | [], _ => none
  | (k, v) :: rest, key => if k = key then some v else mapGet rest key

/-- Whether `key` has an entry (`Map.prototype.has`, `hasOwnProperty`). -/
def mapHas {V : Type} (t : List (String × V)) (key : String) : Bool :=
  (mapGet t key).isSome

/-- Store `v` under `key`: an existing entry is overwritten in place, a new one is appended
(`Map.prototype.set`, property assignment). -/
def mapSet {V : Type} : List (String × V) → String → V → List (String × V)
  | [], key, v => [(key, v)]
  | (k, x) :: rest, key, v =>
    if k = key then (k, v) :: rest else (k, x) :: mapSet rest key v

/-- Add `x` to a set (`Set.prototype.add`): nothing happens when it is already a member. -/
def setAdd {α : Type} [DecidableEq α] (s : List α) (x : α) : List α :=
  if x ∈ s then s else s ++ [x]

/-! ## Objects -/

abbrev ClassRef := Nat
abbrev WorldRef := Nat
abbrev EntityId := String

/-- The static side of a component class, as far as the registry reads or writes it.
`typeName` is `none` when the static is undefined; `properties` is `none` when
`klass.properties instanceof Object` is false and otherwise holds `Object.keys(klass.properties)`;
`bitdigit` is `none` until the class has been given one. A class is an ES class: next to these
statics it has the built-in properties of a function object (see `classReadOnlyKeys`), and
calling it without `new` throws a `TypeError`. -/
structure Klass where
  name : String
  typeName : Option String
  properties : Option (List String)
  bitdigit : Option Nat
deriving DecidableEq

/-- A world, as far as the registry touches it: the inverted index, one set of entity ids per
type or tag name. -/
structure World where
  entitiesByComponent : List (String × List EntityId)
deriving DecidableEq

/-- Modelled from the spec: ComponentPool (`componentpool.js` is not part of the sources). The
spec gives one pool per component type, created at registration; a pool is represented by the
type name and spin-up count its constructor receives, and constructing one does not throw. -/
structure ComponentPool where
  type : String
  spinup : Option Nat
deriving DecidableEq

/-- The fields of a `ComponentRegistry` instance (constructor, lines 21-30). The plain object
`types` takes two fields: `types` holds its own keys, and `typesProto` is `none` while its
prototype is `Object.prototype` and `some k` once the class `k` has been made its prototype by
an assignment to the key `__proto__`. -/
structure ComponentRegistry where
  types : List (String × ClassRef)
  typeset : List String
  typenum : List (String × Nat)
  pool : List (String × ComponentPool)
  tags : List String
  componentNum : Nat
  worlds : List WorldRef
  typesProto : Option ClassRef := none
deriving DecidableEq

/-- A registry together with the class objects and world objects it may reference. -/
structure Runtime where
  registry : ComponentRegistry
  klass : ClassRef → Klass
  world : WorldRef → World

/-- The errors thrown by the registry: one constructor per `throw` statement, and one for each
`TypeError` that the engine raises inside `registerComponent`: at line 50 when the value found
under `hasOwnProperty` is a class (`classCalledWithoutNew`), and at line 57 when the assignment
hits a read-only property inherited from a class (`readOnlyProperty`). -/
inductive RegError where
  | tagAlreadyDefined (name : String)
  | componentAlreadyDefined (name : String)
  | missingProperties
  | reservedProperty (klassName field : String)
  | tagNameTaken (tag : String)
  | classCalledWithoutNew
  | readOnlyProperty (name : String)
deriving DecidableEq

/-- How a call ended: the error it threw (if any) and the state it left behind. -/
structure Outcome where
  thrown : Option RegError
  state : Runtime

/-! ## The registry -/

/-- The reserved field names (lines 3-17). -/
def componentReserved : List String :=
  ["constructor", "init", "id", "type", "key", "destroy", "getObject", "_setup", "clear",
   "_reset", "update", "clone", "prototype"]

/-- The reserved field names as the specification lists them (section 4.1). -/
def specReservedNames : List String :=
  ["constructor", "init", "id", "type", "key", "destroy", "getObject", "setup", "clear",
   "reset", "update", "clone", "prototype"]

/-- The state built by `new ComponentRegistry()`. -/
def ComponentRegistry.fresh : ComponentRegistry :=
  { types := [], typeset := [], typenum := [], pool := [], tags := [], componentNum := 0,
    worlds := [] }

/-- A fresh registry next to arbitrary class and world objects. -/
def Runtime.fresh (klass : ClassRef → Klass) (world : WorldRef → World) : Runtime :=
  { registry := ComponentRegistry.fresh, klass := klass, world := world }

/-- The assignment `world.entitiesByComponent[name] = new Set()`. -/
def seedSlot (name : String) (w : World) : World :=
  { w with entitiesByComponent := mapSet w.entitiesByComponent name [] }

/-- The loop `for (const world of this.worlds) world.entitiesByComponent[name] = new Set()`. -/
def seedWorlds (name : String) : (WorldRef → World) → List WorldRef → (WorldRef → World)
  | heap, [] => heap
  | heap, w :: ws => seedWorlds name (Function.update heap w (seedSlot name (heap w))) ws

/-- The loop `for (const type of this.typeset) world.entitiesByComponent[type] = new Set()`. -/
def seedTypes : World → List String → World
  | w, [] => w
  | w, t :: ts => seedTypes (seedSlot t w) ts

/-- Method `addWorld(world)` (lines 32-38). -/
def addWorld (s : Runtime) (w : WorldRef) : Runtime :=
  { s with
    registry := { s.registry with worlds := setAdd s.registry.worlds w }
    world := Function.update s.world w (seedTypes (s.world w) s.registry.typeset) }

/-- Lines 42-44: a truthy `typeName` different from the class name replaces the name. -/
def applyTypeName (k : Klass) : Klass :=
  match k.typeName with
  | some t => if t ≠ "" ∧ k.name ≠ t then { k with name := t } else k
  | none => k

/-- The name `registerComponent` registers a class under (`klass.name` at line 45). -/
def effectiveName (k : Klass) : String := (applyTypeName k).name

/-- The property names that cannot be assigned on an object whose prototype is a class: the
class has its own non-writable `length`, `name` and `prototype`, and `Function.prototype` has the
accessors `arguments` and `caller`, whose setter throws. In strict code, as in a class body, the
assignment throws a `TypeError`. -/
def classReadOnlyKeys : List String := ["length", "name", "prototype", "arguments", "caller"]

/-- The call `this.types.hasOwnProperty(name)` of line 50. When `types` has an own key
`hasOwnProperty`, the value called is the class stored there and the call throws a `TypeError`
(`none`); otherwise the method of `Object.prototype` is found, whatever the prototype of
`types`, and tells whether `name` is an own key. -/
def typesHasOwnProperty (r : ComponentRegistry) (name : String) : Option Bool :=
  if mapHas r.types "hasOwnProperty" then none else some (mapHas r.types name)

/-- The assignment `this.types[name] = klass` of line 57. An own key is overwritten. Otherwise
the key `__proto__` reaches the setter of `Object.prototype`, which makes the class the
prototype of `types` and creates no own key; a key that a class prototype holds read-only
makes the assignment throw a `TypeError` (`none`); every other key becomes a new own key. -/
def typesAssign (r : ComponentRegistry) (name : String) (k : ClassRef) :
    Option ComponentRegistry :=
  if mapHas r.types name then some { r with types := mapSet r.types name k }
  else if name = "__proto__" then some { r with typesProto := some k }
  else if r.typesProto.isSome ∧ name ∈ classReadOnlyKeys then none
  else some { r with types := mapSet r.types name k }

/-- Line 56: `this.typeset.add(name)`. -/
def addTypeName (s : Runtime) (name : String) : Runtime :=
  { s with registry := { s.registry with typeset := setAdd s.registry.typeset name } }

/-- Lines 58-60: the bit-index is stored on the class and in `typenum`, and `componentNum`
advances. -/
def assignBitIndex (s : Runtime) (k : ClassRef) (name : String) : Runtime :=
  { s with
    registry := { s.registry with
      typenum := mapSet s.registry.typenum name s.registry.componentNum
      componentNum := s.registry.componentNum + 1 }
    klass := Function.update s.klass k
      { s.klass k with bitdigit := some s.registry.componentNum } }

/-- The state in which lines 56-60 leave `s` when `name` is not an own key of `types` and line
57 does not throw (`registerComponent_cases` shows that `registerComponent` reaches it). -/
def allocated (s : Runtime) (k : ClassRef) (name : String) : Runtime :=
  { s with
    registry := { s.registry with
      typeset := setAdd s.registry.typeset name
      types := if name = "__proto__" then s.registry.types else mapSet s.registry.types name k
      typesProto := if name = "__proto__" then some k else s.registry.typesProto
      typenum := mapSet s.registry.typenum name s.registry.componentNum
      componentNum := s.registry.componentNum + 1 }
    klass := Function.update s.klass k
      { s.klass k with bitdigit := some s.registry.componentNum } }

/-- Lines 72-76: create the pool and seed the index slot of every attached world. -/
def installPool (s : Runtime) (name : String) (spinup : Option Nat) : Runtime :=
  { s with
    registry := { s.registry with
      pool := mapSet s.registry.pool name { type := name, spinup := spinup } }
    world := seedWorlds name s.world s.registry.worlds }

/-- Lines 42-44 on the class heap: `Object.defineProperty(klass, "name", ...)`. -/
def renameKlass (s : Runtime) (k : ClassRef) : Runtime :=
  { s with klass := Function.update s.klass k (applyTypeName (s.klass k)) }

/-- Method `registerComponent(klass, spinup)` (lines 40-77). -/
def registerComponent (s : Runtime) (k : ClassRef) (spinup : Option Nat) : Outcome :=
  let s1 : Runtime := renameKlass s k
  let name := (s1.klass k).name
  if name ∈ s1.registry.tags then
    { thrown := some (RegError.tagAlreadyDefined name), state := s1 }
  else
    match typesHasOwnProperty s1.registry name with
    | none => { thrown := some RegError.classCalledWithoutNew, state := s1 }
    | some true => { thrown := some (RegError.componentAlreadyDefined name), state := s1 }
    | some false =>
      let s2 := addTypeName s1 name
      match typesAssign s2.registry name k with
      | none => { thrown := some (RegError.readOnlyProperty name), state := s2 }
      | some r3 =>
        let s3 := assignBitIndex { s2 with registry := r3 } k name
        match (s3.klass k).properties with
        | none => { thrown := some RegError.missingProperties, state := s3 }
        | some fields =>
          match fields.find? (fun field => decide (field ∈ componentReserved)) with
          | some field =>
            { thrown := some (RegError.reservedProperty (s3.klass k).name field), state := s3 }
          | none => { thrown := none, state := installPool s3 name spinup }

/-- The body of the loop of `registerTags` for a name that is not taken (lines 85-91). -/
def registerTag (s : Runtime) (tag : String) : Runtime :=
  { s with
    registry := { s.registry with
      typeset := setAdd s.registry.typeset tag
      typenum := mapSet s.registry.typenum tag s.registry.componentNum
      componentNum := s.registry.componentNum + 1
      tags := setAdd s.registry.tags tag }
    world := seedWorlds tag s.world s.registry.worlds }

/-- Method `registerTags(...tags)` (lines 79-93). -/
def registerTags (s : Runtime) : List String → Outcome
  | [] => { thrown := none, state := s }
  | tag :: rest =>
    if tag ∈ s.registry.typeset then
      { thrown := some (RegError.tagNameTaken tag), state := s }
    else registerTags (registerTag s tag) rest

/-- Method `clear()` (lines 95-102); `this.types = {}` is a new object, with the prototype
every plain object starts with. -/
def clear (s : Runtime) : Runtime :=
  { s with
    registry := { s.registry with
      types := [], typesProto := none, typeset := [], typenum := [], pool := [], tags := [],
      componentNum := 0 } }

/-! ## Call sequences -/

/-- One call on the registry. -/
inductive Call where
  | registerComponent (klass : ClassRef) (spinup : Option Nat)
  | registerTags (tags : List String)
  | addWorld (world : WorldRef)
  | clear
deriving DecidableEq

/-- The state after a call, whether or not it threw. -/
def Call.apply (s : Runtime) : Call → Runtime
  | Call.registerComponent k spinup => (ApeEcs.registerComponent s k spinup).state
  | Call.registerTags tags => (ApeEcs.registerTags s tags).state
  | Call.addWorld w => ApeEcs.addWorld s w
  | Call.clear => ApeEcs.clear s

/-- The state after a sequence of calls, made in order. -/
def runCalls (s : Runtime) (calls : List Call) : Runtime :=
  calls.foldl Call.apply s

/-- Whether a call is `clear()`. -/
def Call.isClear : Call → Bool
  | Call.clear => true
  | _ => false

/-- Every attached world has an index slot for every name of `typeset`. -/
def SlotsSeeded (s : Runtime) : Prop :=
  ∀ w ∈ s.registry.worlds, ∀ n ∈ s.registry.typeset,
    mapHas (s.world w).entitiesByComponent n = true

/-- Whether a call, made in state `s`, is a `registerComponent` that throws at the schema
check or at the reserved-name check (lines 61-71). -/
def Call.schemaError (s : Runtime) : Call → Bool
  | Call.registerComponent k spinup =>
    match (ApeEcs.registerComponent s k spinup).thrown with
    | some RegError.missingProperties => true
    | some (RegError.reservedProperty _ _) => true
    | _ => false
  | _ => false

/-- No call of the sequence, made in order from state `s`, ends in a schema error. -/
def noSchemaError : Runtime → List Call → Prop
  | _, [] => True
  | s, c :: rest => c.schemaError s = false ∧ noSchemaError (c.apply s) rest

/-- No `registerComponent` call of the sequence is for a class whose effective name is
`__proto__`. -/
def NoProtoName (klass : ClassRef → Klass) (calls : List Call) : Prop :=
  ∀ k spinup, Call.registerComponent k spinup ∈ calls → effectiveName (klass k) ≠ "__proto__"

/-- What every registry built by calls on a fresh one satisfies: a name with a bit-index is in
`typeset` and is a tag, an own key of `types` or the name `__proto__`; every bit-index is below
`componentNum`; and different names have different bit-indices. -/
structure RegistryInv (r : ComponentRegistry) : Prop where
  inTypeset : ∀ n, mapHas r.typenum n = true → n ∈ r.typeset
  known : ∀ n, mapHas r.typenum n = true →
    n ∈ r.tags ∨ mapHas r.types n = true ∨ n = "__proto__"
  below : ∀ n i, mapGet r.typenum n = some i → i < r.componentNum
  distinct : ∀ a b i j, a ≠ b → mapGet r.typenum a = some i → mapGet r.typenum b = some j → i ≠ j

/-- The registry is consistent: `typeset` is the key set of `typenum` and the union of the key
set of `types` and of `tags`, no name is both a component type and a tag, `typeset` has no
repetition and `componentNum` names, and the bit-indices in use are exactly the numbers below
`componentNum`. -/
structure RegistryWf (r : ComponentRegistry) : Prop where
  typenumKeys : ∀ n, n ∈ r.typeset ↔ mapHas r.typenum n = true
  union : ∀ n, n ∈ r.typeset ↔ (mapHas r.types n = true ∨ n ∈ r.tags)
  disjoint : ∀ n, ¬ (mapHas r.types n = true ∧ n ∈ r.tags)
  nodup : r.typeset.Nodup
  count : r.componentNum = r.typeset.length
  indices : ∀ i, i < r.componentNum ↔ ∃ n, mapGet r.typenum n = some i

/-- The key set of `pool` is the key set of `types`. -/
def PoolsMatchTypes (r : ComponentRegistry) : Prop :=
  ∀ n, mapHas r.pool n = mapHas r.types n

/-! ## Several registries over the same classes -/

abbrev RegistryRef := Nat

/-- Several registries next to the class and world objects they share: a class object is the
same object, with one `name` and one `bitdigit`, in whichever registry it is registered. -/
structure Realm where
  registries : RegistryRef → ComponentRegistry
  klass : ClassRef → Klass
  world : WorldRef → World

/-- Fresh registries only. -/
def Realm.fresh (klass : ClassRef → Klass) (world : WorldRef → World) : Realm :=
  { registries := fun _ => ComponentRegistry.fresh, klass := klass, world := world }

/-- The registry `r` together with the shared objects. -/
def Realm.view (m : Realm) (r : RegistryRef) : Runtime :=
  { registry := m.registries r, klass := m.klass, world := m.world }

/-- A call on registry `r`: that registry and the shared objects take the state the call ends
in, the other registries stay as they are. -/
def Realm.call (m : Realm) (r : RegistryRef) (c : Call) : Realm :=
  { registries := Function.update m.registries r (c.apply (m.view r)).registry
    klass := (c.apply (m.view r)).klass
    world := (c.apply (m.view r)).world }

/-- A sequence of calls, each on the registry it names. -/
def Realm.run (m : Realm) : List (RegistryRef × Call) → Realm
  | [] => m
  | (r, c) :: rest => Realm.run (m.call r c) rest

/-! ## Systems (`src/system.js`) -/

abbrev QueryRef := Nat

/-- The fields of a `System` instance; `χ` is the type of change notifications, which the
system stores without looking inside. Queries are objects, held by reference. -/
structure System (χ : Type) where
  world : WorldRef
  _stagedChanges : List χ
  changes : List χ
  queries : List QueryRef
  lastTick : Nat
deriving DecidableEq

/-- The fields set by the constructor (lines 5-17), `currentTick` being `world.currentTick`.
The subscriptions made at lines 12-16 are entries in the world and touch no field of the
system. -/
def System.construct {χ : Type} (world : WorldRef) (currentTick : Nat) : System χ :=
  { world := world, _stagedChanges := [], changes := [], queries := [], lastTick := currentTick }

/-- Method `_preUpdate()` (lines 28-32). -/
def System._preUpdate {χ : Type} (sys : System χ) : System χ :=
  { sys with changes := sys._stagedChanges, _stagedChanges := [] }

/-- Method `_recvChange(change)` (lines 41-44): `push` appends at the end. -/
def System._recvChange {χ : Type} (sys : System χ) (change : χ) : System χ :=
  { sys with _stagedChanges := sys._stagedChanges ++ [change] }

/-- The loop of `_postUpdate` on the query objects: `query.clearChanges()` for each entry of
the list, in order. `clearChanges` is the method of the query class, a parameter here. -/
def clearQueries {Q : Type} (clearChanges : Q → Q) :
    (QueryRef → Q) → List QueryRef → (QueryRef → Q)
  | heap, [] => heap
  | heap, q :: qs => clearQueries clearChanges (Function.update heap q (clearChanges (heap q))) qs

/-- Method `_postUpdate()` (lines 34-39): the system and the query objects afterwards. -/
def System._postUpdate {χ Q : Type} (clearChanges : Q → Q) (sys : System χ)
    (heap : QueryRef → Q) : System χ × (QueryRef → Q) :=
  (sys, clearQueries clearChanges heap sys.queries)

/-- Modelled from the spec: Query (`query.js` is not part of the sources). A persistent query
keeps the entities added and removed since the last reset, and its results. -/
structure Query where
  added : List EntityId
  removed : List EntityId
  results : List EntityId
deriving DecidableEq

/-- Modelled from the spec: Query.clearChanges (`query.js` is not part of the sources): the reset
after which `added` and `removed` are empty. -/
def Query.clearChanges (q : Query) : Query :=
  { q with added := [], removed := [] }

/-- A call on a system by the world: a change notification, or the start of a pass. -/
inductive SystemCall (χ : Type) where
  | recvChange (change : χ)
  | preUpdate
deriving DecidableEq

/-- The system after a call. -/
def SystemCall.apply {χ : Type} (sys : System χ) : SystemCall χ → System χ
  | SystemCall.recvChange change => sys._recvChange change
  | SystemCall.preUpdate => sys._preUpdate

/-- The system after a sequence of calls. -/
def runSystem {χ : Type} (sys : System χ) (calls : List (SystemCall χ)) : System χ :=
  calls.foldl SystemCall.apply sys

/-- The arguments of the `_recvChange` calls of a sequence, in call order. -/
def receivedChanges {χ : Type} : List (SystemCall χ) → List χ
  | [] => []
  | SystemCall.recvChange change :: rest => change :: receivedChanges rest
  | SystemCall.preUpdate :: rest => receivedChanges rest

/-- The value of `changes` right after each `_preUpdate` call of a sequence, in call order. -/
def observedChanges {χ : Type} : System χ → List (SystemCall χ) → List (List χ)
  | _, [] => []
  | sys, SystemCall.recvChange change :: rest => observedChanges (sys._recvChange change) rest
  | sys, SystemCall.preUpdate :: rest =>
    sys._preUpdate.changes :: observedChanges sys._preUpdate rest

/-! ## Sample objects -/

/-- A class heap for the examples: `0` is `FakeTag` without a schema, `1` is `Health`,
`2` is `Color` with type name `Colour`, `3` has a field called `setup`, `4` has the reserved
field `_setup`, `6` is a second class called `Colour`, `7` a second class called `Color`, `8`
is called `hasOwnProperty`, `9` is called `__proto__`, `10` has the type name `__proto__`,
`11` has the type name `hasOwnProperty` and the class name `Guard`, `12` is a second class
called `Guard`, `13` is called `length`, `14` is called `length` and has the type name `Size`,
and every other reference is `Armor`. -/
def sampleKlass : ClassRef → Klass
  | 0 => { name := "FakeTag", typeName := none, properties := none, bitdigit := none }
  | 1 => { name := "Health", typeName := some "Health",
           properties := some ["max", "hp", "armor"], bitdigit := none }
  | 2 => { name := "Color", typeName := some "Colour",
           properties := some ["r", "g", "b"], bitdigit := none }
  | 3 => { name := "Rig", typeName := none, properties := some ["setup", "reset"],
           bitdigit := none }
  | 4 => { name := "Bad", typeName := none, properties := some ["x", "_setup"],
           bitdigit := none }
  | 6 => { name := "Colour", typeName := none, properties := some ["r", "g", "b"],
           bitdigit := none }
  | 7 => { name := "Color", typeName := none, properties := some ["r", "g", "b"],
           bitdigit := none }
  | 8 => { name := "hasOwnProperty", typeName := none, properties := some ["x"],
           bitdigit := none }
  | 9 => { name := "__proto__", typeName := none, properties := some ["x"],
           bitdigit := none }
  | 10 => { name := "Chain", typeName := some "__proto__", properties := some ["y"],
            bitdigit := none }
  | 11 => { name := "Guard", typeName := some "hasOwnProperty", properties := some ["y"],
            bitdigit := none }
  | 12 => { name := "Guard", typeName := none, properties := some ["z"], bitdigit := none }
  | 13 => { name := "length", typeName := none, properties := some ["z"], bitdigit := none }
  | 14 => { name := "length", typeName := some "Size", properties := some ["z"],
            bitdigit := none }
  | _ => { name := "Armor", typeName := none, properties := some ["name", "ac"],
           bitdigit := none }

/-- A world heap for the examples: every world starts with an empty inverted index. -/
def sampleWorld : WorldRef → World := fun _ => { entitiesByComponent := [] }

/-- A fresh registry over the sample objects. -/
def sampleFresh : Runtime := Runtime.fresh sampleKlass sampleWorld

/-! ## Dictionaries, sets and the seeding loops -/

theorem mapGet_mapSet_self {V : Type} (t : List (String × V)) (key : String) (v : V) :
    mapGet (mapSet t key v) key = some v := by
  induction t with
  | nil => simp [mapSet, mapGet]
  | cons hd tl ih =>
    obtain ⟨k, x⟩ := hd
    by_cases h : k = key
    · simp [mapSet, mapGet, h]
    · simp [mapSet, mapGet, h, ih]

theorem mapGet_mapSet_of_ne {V : Type} (t : List (String × V)) (key other : String) (v : V)
    (h : other ≠ key) : mapGet (mapSet t key v) other = mapGet t other := by
  induction t with
  | nil =>
    have h2 : ¬ key = other := fun e => h e.symm
    simp [mapSet, mapGet, h2]
  | cons hd tl ih =>
    obtain ⟨k, x⟩ := hd
    by_cases hk : k = key
    · subst hk
      have h2 : ¬ k = other := fun e => h e.symm
      simp [mapSet, mapGet, h2]
    · by_cases ho : k = other
      · subst ho
        simp [mapSet, mapGet, hk]
      · simp [mapSet, mapGet, hk, ho, ih]

theorem mapHas_mapSet {V : Type} (t : List (String × V)) (key other : String) (v : V) :
    mapHas (mapSet t key v) other = (decide (other = key) || mapHas t other) := by
  by_cases h : other = key
  · subst h
    simp [mapHas, mapGet_mapSet_self]
  · simp [mapHas, mapGet_mapSet_of_ne t key other v h, h]

theorem mem_setAdd {α : Type} [DecidableEq α] (s : List α) (x y : α) :
    y ∈ setAdd s x ↔ y ∈ s ∨ y = x := by
  unfold setAdd
  by_cases h : x ∈ s
  · simp only [h, if_true]
    constructor
    · exact Or.inl
    · rintro (h1 | h1)
      · exact h1
      · exact h1 ▸ h
  · simp [h]

theorem setAdd_of_not_mem {α : Type} [DecidableEq α] (s : List α) (x : α) (h : x ∉ s) :
    setAdd s x = s ++ [x] := by
  simp [setAdd, h]

theorem seedSlot_get_self (name : String) (w : World) :
    mapGet (seedSlot name w).entitiesByComponent name = some [] := by
  simp [seedSlot, mapGet_mapSet_self]

theorem seedSlot_get_of_ne (name other : String) (w : World) (h : other ≠ name) :
    mapGet (seedSlot name w).entitiesByComponent other = mapGet w.entitiesByComponent other := by
  simp [seedSlot, mapGet_mapSet_of_ne _ _ _ _ h]

theorem seedWorlds_of_not_mem (name : String) (heap : WorldRef → World) (ws : List WorldRef)
    (w : WorldRef) (h : w ∉ ws) : seedWorlds name heap ws w = heap w := by
  induction ws generalizing heap with
  | nil => rfl
  | cons hd tl ih =>
    have h1 : w ≠ hd := fun e => h (e ▸ List.mem_cons_self _ _)
    have h2 : w ∉ tl := fun e => h (List.mem_cons_of_mem _ e)
    simp [seedWorlds, ih _ h2, Function.update_noteq h1]

theorem seedWorlds_get_of_ne (name other : String) (heap : WorldRef → World)
    (ws : List WorldRef) (w : WorldRef) (h : other ≠ name) :
    mapGet (seedWorlds name heap ws w).entitiesByComponent other
      = mapGet (heap w).entitiesByComponent other := by
  induction ws generalizing heap with
  | nil => rfl
  | cons hd tl ih =>
    simp only [seedWorlds]
    rw [ih]
    by_cases hw : w = hd
    · subst hw
      simp [seedSlot_get_of_ne _ _ _ h]
    · simp [Function.update_noteq hw]

theorem seedWorlds_get_self (name : String) (heap : WorldRef → World) (ws : List WorldRef)
    (w : WorldRef)
    (h : w ∈ ws ∨ mapGet (heap w).entitiesByComponent name = some []) :
    mapGet (seedWorlds name heap ws w).entitiesByComponent name = some [] := by
  induction ws generalizing heap with
  | nil =>
    rcases h with h | h
    · simp at h
    · exact h
  | cons hd tl ih =>
    simp only [seedWorlds]
    apply ih
    by_cases hw : w = hd
    · subst hw
      right
      simp [seedSlot_get_self]
    · rcases h with h | h
      · left
        rcases List.mem_cons.mp h with h1 | h1
        · exact absurd h1 hw
        · exact h1
      · right
        simpa [Function.update_noteq hw] using h

theorem seedWorlds_has_mono (name other : String) (heap : WorldRef → World)
    (ws : List WorldRef) (w : WorldRef)
    (h : mapHas (heap w).entitiesByComponent other = true) :
    mapHas (seedWorlds name heap ws w).entitiesByComponent other = true := by
  by_cases hn : other = name
  · subst hn
    by_cases hw : w ∈ ws
    · simp [mapHas, seedWorlds_get_self _ heap ws w (Or.inl hw)]
    · rw [seedWorlds_of_not_mem _ _ _ _ hw]
      exact h
  · simpa [mapHas, seedWorlds_get_of_ne _ _ heap ws w hn] using h

theorem seedTypes_get_of_not_mem (w : World) (ts : List String) (other : String)
    (h : other ∉ ts) :
    mapGet (seedTypes w ts).entitiesByComponent other = mapGet w.entitiesByComponent other := by
  induction ts generalizing w with
  | nil => rfl
  | cons hd tl ih =>
    have h1 : other ≠ hd := fun e => h (e ▸ List.mem_cons_self _ _)
    have h2 : other ∉ tl := fun e => h (List.mem_cons_of_mem _ e)
    simp [seedTypes, ih _ h2, seedSlot_get_of_ne _ _ _ h1]

theorem seedTypes_get_of_mem (w : World) (ts : List String) (name : String)
    (h : name ∈ ts ∨ mapGet w.entitiesByComponent name = some []) :
    mapGet (seedTypes w ts).entitiesByComponent name = some [] := by
  induction ts generalizing w with
  | nil =>
    rcases h with h | h
    · simp at h
    · exact h
  | cons hd tl ih =>
    simp only [seedTypes]
    apply ih
    by_cases hn : name = hd
    · subst hn
      exact Or.inr (seedSlot_get_self _ _)
    · rcases h with h | h
      · left
        rcases List.mem_cons.mp h with h1 | h1
        · exact absurd h1 hn
        · exact h1
      · right
        rw [seedSlot_get_of_ne _ _ _ hn]
        exact h

/-! ## The shape of `registerComponent` and `registerTags` -/

theorem applyTypeName_properties (k : Klass) : (applyTypeName k).properties = k.properties := by
  unfold applyTypeName
  split
  · split <;> rfl
  · rfl

theorem renameKlass_name (s : Runtime) (k : ClassRef) :
    ((renameKlass s k).klass k).name = effectiveName (s.klass k) := by
  simp [renameKlass, effectiveName]

theorem allocated_klass (s : Runtime) (k : ClassRef) (name : String) :
    (allocated (renameKlass s k) k name).klass k
      = { applyTypeName (s.klass k) with bitdigit := some s.registry.componentNum } := by
  simp [allocated, renameKlass]

theorem proto_not_readOnly : "__proto__" ∉ classReadOnlyKeys := by decide

/-- Line 57 for a name that is not an own key of `types`. -/
theorem typesAssign_of_free (r : ComponentRegistry) (name : String) (k : ClassRef)
    (h : mapHas r.types name = false) :
    typesAssign r name k =
      if r.typesProto.isSome = true ∧ name ∈ classReadOnlyKeys then none
      else some { r with
        types := if name = "__proto__" then r.types else mapSet r.types name k
        typesProto := if name = "__proto__" then some k else r.typesProto } := by
  unfold typesAssign
  rw [h]
  by_cases hp : name = "__proto__"
  · subst hp
    simp [proto_not_readOnly]
  · by_cases hb : r.typesProto.isSome = true ∧ name ∈ classReadOnlyKeys
    · simp [hp, hb]
    · simp only [Bool.false_eq_true, if_false, hp, hb]

/-- The seven ways through `registerComponent`: the tag check, the three outcomes of the call at
line 50 that end the call, the assignment at line 57 failing, the schema check, the
reserved-name check, and success. -/
theorem registerComponent_cases (s : Runtime) (k : ClassRef) (spinup : Option Nat) :
    (effectiveName (s.klass k) ∈ s.registry.tags ∧
      registerComponent s k spinup =
        { thrown := some (RegError.tagAlreadyDefined (effectiveName (s.klass k))),
          state := renameKlass s k }) ∨
    (effectiveName (s.klass k) ∉ s.registry.tags ∧
      mapHas s.registry.types "hasOwnProperty" = true ∧
      registerComponent s k spinup =
        { thrown := some RegError.classCalledWithoutNew, state := renameKlass s k }) ∨
    (effectiveName (s.klass k) ∉ s.registry.tags ∧
      mapHas s.registry.types "hasOwnProperty" = false ∧
      mapHas s.registry.types (effectiveName (s.klass k)) = true ∧
      registerComponent s k spinup =
        { thrown := some (RegError.componentAlreadyDefined (effectiveName (s.klass k))),
          state := renameKlass s k }) ∨
    (effectiveName (s.klass k) ∉ s.registry.tags ∧
      mapHas s.registry.types "hasOwnProperty" = false ∧
      mapHas s.registry.types (effectiveName (s.klass k)) = false ∧
      (s.registry.typesProto.isSome = true ∧ effectiveName (s.klass k) ∈ classReadOnlyKeys) ∧
      registerComponent s k spinup =
        { thrown := some (RegError.readOnlyProperty (effectiveName (s.klass k))),
          state := addTypeName (renameKlass s k) (effectiveName (s.klass k)) }) ∨
    (effectiveName (s.klass k) ∉ s.registry.tags ∧
      mapHas s.registry.types "hasOwnProperty" = false ∧
      mapHas s.registry.types (effectiveName (s.klass k)) = false ∧
      ¬ (s.registry.typesProto.isSome = true ∧ effectiveName (s.klass k) ∈ classReadOnlyKeys) ∧
      (s.klass k).properties = none ∧
      registerComponent s k spinup =
        { thrown := some RegError.missingProperties,
          state := allocated (renameKlass s k) k (effectiveName (s.klass k)) }) ∨
    (∃ fields field,
      effectiveName (s.klass k) ∉ s.registry.tags ∧
      mapHas s.registry.types "hasOwnProperty" = false ∧
      mapHas s.registry.types (effectiveName (s.klass k)) = false ∧
      ¬ (s.registry.typesProto.isSome = true ∧ effectiveName (s.klass k) ∈ classReadOnlyKeys) ∧
      (s.klass k).properties = some fields ∧
      fields.find? (fun f => decide (f ∈ componentReserved)) = some field ∧
      registerComponent s k spinup =
        { thrown := some (RegError.reservedProperty (effectiveName (s.klass k)) field),
          state := allocated (renameKlass s k) k (effectiveName (s.klass k)) }) ∨
    (∃ fields,
      effectiveName (s.klass k) ∉ s.registry.tags ∧
      mapHas s.registry.types "hasOwnProperty" = false ∧
      mapHas s.registry.types (effectiveName (s.klass k)) = false ∧
      ¬ (s.registry.typesProto.isSome = true ∧ effectiveName (s.klass k) ∈ classReadOnlyKeys) ∧
      (s.klass k).properties = some fields ∧
      fields.find? (fun f => decide (f ∈ componentReserved)) = none ∧
      registerComponent s k spinup =
        { thrown := none,
          state := installPool (allocated (renameKlass s k) k (effectiveName (s.klass k)))
            (effectiveName (s.klass k)) spinup }) := by
  have hname := renameKlass_name s k
  have hreg : (renameKlass s k).registry = s.registry := rfl
  have hk2 := allocated_klass s k (effectiveName (s.klass k))
  by_cases h1 : effectiveName (s.klass k) ∈ s.registry.tags
  · left
    refine ⟨h1, ?_⟩
    simp [registerComponent, hname, hreg, h1]
  right
  by_cases h0 : mapHas s.registry.types "hasOwnProperty" = true
  · left
    refine ⟨h1, h0, ?_⟩
    simp [registerComponent, hname, hreg, h1, typesHasOwnProperty, h0]
  right
  have h0f : mapHas s.registry.types "hasOwnProperty" = false := by simpa using h0
  by_cases h2 : mapHas s.registry.types (effectiveName (s.klass k)) = true
  · left
    refine ⟨h1, h0f, h2, ?_⟩
    simp [registerComponent, hname, hreg, h1, typesHasOwnProperty, h0f, h2]
  right
  have h2f : mapHas s.registry.types (effectiveName (s.klass k)) = false := by simpa using h2
  have hfree : mapHas (addTypeName (renameKlass s k) (effectiveName (s.klass k))).registry.types
      (effectiveName (s.klass k)) = false := h2f
  have hassign := typesAssign_of_free _ _ k hfree
  by_cases hb : s.registry.typesProto.isSome = true ∧
      effectiveName (s.klass k) ∈ classReadOnlyKeys
  · left
    refine ⟨h1, h0f, h2f, hb, ?_⟩
    have hb2 : (addTypeName (renameKlass s k) (effectiveName (s.klass k))
        ).registry.typesProto.isSome = true ∧
        effectiveName (s.klass k) ∈ classReadOnlyKeys := hb
    rw [if_pos hb2] at hassign
    simp [registerComponent, hname, hreg, h1, typesHasOwnProperty, h0f, h2f, hassign]
  right
  have hb2 : ¬ ((addTypeName (renameKlass s k) (effectiveName (s.klass k))
      ).registry.typesProto.isSome = true ∧
      effectiveName (s.klass k) ∈ classReadOnlyKeys) := hb
  rw [if_neg hb2] at hassign
  have hstate : assignBitIndex
      { addTypeName (renameKlass s k) (effectiveName (s.klass k)) with
        registry := { (addTypeName (renameKlass s k) (effectiveName (s.klass k))).registry with
          types := if effectiveName (s.klass k) = "__proto__"
            then (addTypeName (renameKlass s k) (effectiveName (s.klass k))).registry.types
            else mapSet (addTypeName (renameKlass s k) (effectiveName (s.klass k))
              ).registry.types (effectiveName (s.klass k)) k
          typesProto := if effectiveName (s.klass k) = "__proto__" then some k
            else (addTypeName (renameKlass s k) (effectiveName (s.klass k))
              ).registry.typesProto } } k (effectiveName (s.klass k))
      = allocated (renameKlass s k) k (effectiveName (s.klass k)) := rfl
  cases hp : (s.klass k).properties with
  | none =>
    left
    refine ⟨h1, h0f, h2f, hb, rfl, ?_⟩
    simp [registerComponent, hname, hreg, h1, typesHasOwnProperty, h0f, h2f, hassign, hstate,
      hk2, applyTypeName_properties, hp]
  | some fields =>
    right
    cases hf : fields.find? (fun f => decide (f ∈ componentReserved)) with
    | some field =>
      left
      refine ⟨fields, field, h1, h0f, h2f, hb, rfl, hf, ?_⟩
      simp [registerComponent, hname, hreg, h1, typesHasOwnProperty, h0f, h2f, hassign, hstate,
        hk2, applyTypeName_properties, hp, hf]
      rfl
    | none =>
      right
      refine ⟨fields, h1, h0f, h2f, hb, rfl, hf, ?_⟩
      simp [registerComponent, hname, hreg, h1, typesHasOwnProperty, h0f, h2f, hassign, hstate,
        hk2, applyTypeName_properties, hp, hf]

theorem registerTags_nil (s : Runtime) :
    registerTags s [] = { thrown := none, state := s } := rfl

theorem registerTags_cons_taken (s : Runtime) (tag : String) (rest : List String)
    (h : tag ∈ s.registry.typeset) :
    registerTags s (tag :: rest) = { thrown := some (RegError.tagNameTaken tag), state := s } := by
  simp [registerTags, h]

theorem registerTags_cons_free (s : Runtime) (tag : String) (rest : List String)
    (h : tag ∉ s.registry.typeset) :
    registerTags s (tag :: rest) = registerTags (registerTag s tag) rest := by
  simp [registerTags, h]

/-- A property kept by every turn of the loop holds in the state `registerTags` ends in. -/
theorem registerTags_preserves (P : Runtime → Prop) (tags : List String)
    (hstep : ∀ s tag, tag ∈ tags → tag ∉ s.registry.typeset → P s → P (registerTag s tag))
    (s : Runtime) (h : P s) : P (registerTags s tags).state := by
  induction tags generalizing s with
  | nil => exact h
  | cons tag rest ih =>
    by_cases ht : tag ∈ s.registry.typeset
    · rw [registerTags_cons_taken s tag rest ht]
      exact h
    · rw [registerTags_cons_free s tag rest ht]
      exact ih (fun t x hx => hstep t x (List.mem_cons_of_mem _ hx)) _
        (hstep s tag (List.mem_cons_self _ _) ht h)

theorem registerTags_worlds (s : Runtime) (tags : List String) :
    (registerTags s tags).state.registry.worlds = s.registry.worlds :=
  registerTags_preserves (fun t => t.registry.worlds = s.registry.worlds) tags
    (fun _ _ _ _ h => h) s rfl

theorem registerTags_types (s : Runtime) (tags : List String) :
    (registerTags s tags).state.registry.types = s.registry.types :=
  registerTags_preserves (fun t => t.registry.types = s.registry.types) tags
    (fun _ _ _ _ h => h) s rfl

theorem registerTags_pool (s : Runtime) (tags : List String) :
    (registerTags s tags).state.registry.pool = s.registry.pool :=
  registerTags_preserves (fun t => t.registry.pool = s.registry.pool) tags
    (fun _ _ _ _ h => h) s rfl

theorem registerTags_typenum_of_not_mem (s : Runtime) (tags : List String) (n : String)
    (hn : n ∉ tags) :
    mapGet (registerTags s tags).state.registry.typenum n = mapGet s.registry.typenum n :=
  registerTags_preserves
    (fun t => mapGet t.registry.typenum n = mapGet s.registry.typenum n) tags
    (fun t tag htag _ h => by
      have hne : n ≠ tag := fun e => hn (e ▸ htag)
      simpa [registerTag, mapGet_mapSet_of_ne _ _ _ _ hne] using h) s rfl

theorem registerTags_slot_of_not_mem (s : Runtime) (tags : List String) (n : String)
    (w : WorldRef) (hn : n ∉ tags) :
    mapGet ((registerTags s tags).state.world w).entitiesByComponent n
      = mapGet (s.world w).entitiesByComponent n :=
  registerTags_preserves
    (fun t => mapGet (t.world w).entitiesByComponent n
      = mapGet (s.world w).entitiesByComponent n) tags
    (fun t tag htag _ h => by
      have hne : n ≠ tag := fun e => hn (e ▸ htag)
      simpa [registerTag, seedWorlds_get_of_ne _ _ _ _ _ hne] using h) s rfl

theorem registerTags_tags_mono (s : Runtime) (tags : List String) (n : String)
    (hn : n ∈ s.registry.tags) : n ∈ (registerTags s tags).state.registry.tags :=
  registerTags_preserves (fun t => n ∈ t.registry.tags) tags
    (fun t tag _ _ h => by
      simp only [registerTag, mem_setAdd]
      exact Or.inl h) s hn

theorem registerTags_typeset_mono (s : Runtime) (tags : List String) (n : String)
    (hn : n ∈ s.registry.typeset) : n ∈ (registerTags s tags).state.registry.typeset :=
  registerTags_preserves (fun t => n ∈ t.registry.typeset) tags
    (fun t tag _ _ h => by
      simp only [registerTag, mem_setAdd]
      exact Or.inl h) s hn

/-! ## The registry invariant -/

theorem registryInv_fresh : RegistryInv ComponentRegistry.fresh := by
  constructor <;> simp [ComponentRegistry.fresh, mapHas, mapGet]

theorem mapSet_next_below (tn : List (String × Nat)) (cn : Nat) (name : String)
    (hb : ∀ n i, mapGet tn n = some i → i < cn) :
    ∀ n i, mapGet (mapSet tn name cn) n = some i → i < cn + 1 := by
  intro n i h
  by_cases hn : n = name
  · subst hn
    rw [mapGet_mapSet_self] at h
    have : cn = i := Option.some.inj h
    omega
  · rw [mapGet_mapSet_of_ne _ _ _ _ hn] at h
    have := hb n i h
    omega

theorem mapSet_next_distinct (tn : List (String × Nat)) (cn : Nat) (name : String)
    (hb : ∀ n i, mapGet tn n = some i → i < cn)
    (hd : ∀ a b i j, a ≠ b → mapGet tn a = some i → mapGet tn b = some j → i ≠ j) :
    ∀ a b i j, a ≠ b → mapGet (mapSet tn name cn) a = some i →
      mapGet (mapSet tn name cn) b = some j → i ≠ j := by
  intro a b i j hab ha hb2
  by_cases h1 : a = name
  · subst h1
    rw [mapGet_mapSet_self] at ha
    rw [mapGet_mapSet_of_ne _ _ _ _ (Ne.symm hab)] at hb2
    have e : cn = i := Option.some.inj ha
    have := hb b j hb2
    omega
  · rw [mapGet_mapSet_of_ne _ _ _ _ h1] at ha
    by_cases h2 : b = name
    · subst h2
      rw [mapGet_mapSet_self] at hb2
      have e : cn = j := Option.some.inj hb2
      have := hb a i ha
      omega
    · rw [mapGet_mapSet_of_ne _ _ _ _ h2] at hb2
      exact hd a b i j hab ha hb2

theorem registryInv_allocated (s : Runtime) (k : ClassRef) (name : String)
    (h : RegistryInv s.registry) : RegistryInv (allocated s k name).registry := by
  constructor
  · intro n hn
    simp only [allocated, mapHas_mapSet, Bool.or_eq_true, decide_eq_true_eq] at hn
    simp only [allocated, mem_setAdd]
    rcases hn with hn | hn
    · exact Or.inr hn
    · exact Or.inl (h.inTypeset n hn)
  · intro n hn
    simp only [allocated, mapHas_mapSet, Bool.or_eq_true, decide_eq_true_eq] at hn
    simp only [allocated]
    by_cases hp : name = "__proto__"
    · rw [if_pos hp]
      rcases hn with hn | hn
      · exact Or.inr (Or.inr (hn.trans hp))
      · exact h.known n hn
    · rw [if_neg hp]
      simp only [mapHas_mapSet, Bool.or_eq_true, decide_eq_true_eq]
      rcases hn with hn | hn
      · exact Or.inr (Or.inl (Or.inl hn))
      · rcases h.known n hn with h1 | h1 | h1
        · exact Or.inl h1
        · exact Or.inr (Or.inl (Or.inr h1))
        · exact Or.inr (Or.inr h1)
  · exact mapSet_next_below _ _ _ h.below
  · exact mapSet_next_distinct _ _ _ h.below h.distinct

theorem registryInv_addTypeName (s : Runtime) (name : String)
    (h : RegistryInv s.registry) : RegistryInv (addTypeName s name).registry := by
  refine ⟨?_, h.known, h.below, h.distinct⟩
  intro n hn
  simp only [addTypeName, mem_setAdd]
  exact Or.inl (h.inTypeset n hn)

theorem registryInv_installPool (s : Runtime) (name : String) (spinup : Option Nat)
    (h : RegistryInv s.registry) : RegistryInv (installPool s name spinup).registry :=
  ⟨h.inTypeset, h.known, h.below, h.distinct⟩

theorem registryInv_registerTag (s : Runtime) (tag : String)
    (h : RegistryInv s.registry) : RegistryInv (registerTag s tag).registry := by
  constructor
  · intro n hn
    simp only [registerTag, mapHas_mapSet, Bool.or_eq_true, decide_eq_true_eq] at hn
    simp only [registerTag, mem_setAdd]
    rcases hn with hn | hn
    · exact Or.inr hn
    · exact Or.inl (h.inTypeset n hn)
  · intro n hn
    simp only [registerTag, mapHas_mapSet, Bool.or_eq_true, decide_eq_true_eq] at hn
    simp only [registerTag, mem_setAdd]
    rcases hn with hn | hn
    · exact Or.inl (Or.inr hn)
    · rcases h.known n hn with h1 | h1 | h1
      · exact Or.inl (Or.inl h1)
      · exact Or.inr (Or.inl h1)
      · exact Or.inr (Or.inr h1)
  · exact mapSet_next_below _ _ _ h.below
  · exact mapSet_next_distinct _ _ _ h.below h.distinct

theorem registryInv_registerComponent (s : Runtime) (k : ClassRef) (spinup : Option Nat)
    (h : RegistryInv s.registry) : RegistryInv (registerComponent s k spinup).state.registry := by
  have h1 : RegistryInv (renameKlass s k).registry := h
  rcases registerComponent_cases s k spinup with
    ⟨_, e⟩ | ⟨_, _, e⟩ | ⟨_, _, _, e⟩ | ⟨_, _, _, _, e⟩ | ⟨_, _, _, _, _, e⟩ |
    ⟨_, _, _, _, _, _, _, _, e⟩ | ⟨_, _, _, _, _, _, _, e⟩
  · rw [e]; exact h1
  · rw [e]; exact h1
  · rw [e]; exact h1
  · rw [e]; exact registryInv_addTypeName _ _ h1
  · rw [e]; exact registryInv_allocated _ _ _ h1
  · rw [e]; exact registryInv_allocated _ _ _ h1
  · rw [e]; exact registryInv_installPool _ _ _ (registryInv_allocated _ _ _ h1)

theorem registryInv_registerTags (s : Runtime) (tags : List String)
    (h : RegistryInv s.registry) : RegistryInv (registerTags s tags).state.registry :=
  registerTags_preserves (fun t => RegistryInv t.registry) tags
    (fun t tag _ _ ht => registryInv_registerTag t tag ht) s h

theorem registryInv_apply (s : Runtime) (c : Call) (h : RegistryInv s.registry) :
    RegistryInv (c.apply s).registry := by
  cases c with
  | registerComponent k spinup => exact registryInv_registerComponent s k spinup h
  | registerTags tags => exact registryInv_registerTags s tags h
  | addWorld w => exact ⟨h.inTypeset, h.known, h.below, h.distinct⟩
  | clear => constructor <;> simp [Call.apply, clear, mapHas, mapGet]

theorem registryInv_runCalls (s : Runtime) (calls : List Call) (h : RegistryInv s.registry) :
    RegistryInv (runCalls s calls).registry := by
  induction calls generalizing s with
  | nil => exact h
  | cons c rest ih => exact ih _ (registryInv_apply s c h)

theorem runCalls_append (s : Runtime) (xs ys : List Call) :
    runCalls s (xs ++ ys) = runCalls (runCalls s xs) ys := by
  simp [runCalls, List.foldl_append]

/-! ## Claims -/

/-- C1: in every state reached from a fresh registry by any sequence of `registerComponent`,
`registerTags`, `addWorld` and `clear` calls (throwing calls included, with the mutations they
made before throwing), two different names of `typenum` have different bit-indices. -/
theorem C1_bit_indices_pairwise_distinct (klass : ClassRef → Klass) (world : WorldRef → World)
    (calls : List Call) (a b : String) (i j : Nat) (hab : a ≠ b)
    (ha : mapGet (runCalls (Runtime.fresh klass world) calls).registry.typenum a = some i)
    (hb : mapGet (runCalls (Runtime.fresh klass world) calls).registry.typenum b = some j) :
    i ≠ j :=
  (registryInv_runCalls (Runtime.fresh klass world) calls registryInv_fresh).distinct
    a b i j hab ha hb

/-- C1, at a run with a throwing `registerComponent`, a throwing `registerTags` and a `clear`
followed by new registrations. -/
theorem C1_bit_indices_pairwise_distinct_witness :
    mapGet (runCalls sampleFresh
      [Call.registerTags ["NPC"], Call.clear, Call.addWorld 0, Call.registerComponent 0 none,
       Call.registerComponent 1 none, Call.registerTags ["Enemy", "Health", "Player"]]
      ).registry.typenum "Health" = some 1 ∧
    mapGet (runCalls sampleFresh
      [Call.registerTags ["NPC"], Call.clear, Call.addWorld 0, Call.registerComponent 0 none,
       Call.registerComponent 1 none, Call.registerTags ["Enemy", "Health", "Player"]]
      ).registry.typenum "Enemy" = some 2 ∧
    (1 : Nat) ≠ 2 :=
  ⟨by decide, by decide,
   C1_bit_indices_pairwise_distinct sampleKlass sampleWorld
    [Call.registerTags ["NPC"], Call.clear, Call.addWorld 0, Call.registerComponent 0 none,
     Call.registerComponent 1 none, Call.registerTags ["Enemy", "Health", "Player"]]
    "Health" "Enemy" 1 2 (by decide) (by decide) (by decide)⟩

/-- C2, as stated: once a class called `hasOwnProperty` is registered, `registerComponent(Health)`
throws although `Health` is neither a tag nor a component type, has a schema and has no
reserved field; and once a class called `__proto__` is registered (the name is in `typeset` and
has a bit-index), registering another class under the name `__proto__` does not throw. -/
theorem C2_special_names_break_the_equivalence :
    (registerComponent sampleFresh 8 none).thrown = none ∧
    (registerComponent (registerComponent sampleFresh 8 none).state 1 none).thrown
      = some RegError.classCalledWithoutNew ∧
    effectiveName ((registerComponent sampleFresh 8 none).state.klass 1)
      ∉ (registerComponent sampleFresh 8 none).state.registry.tags ∧
    mapHas (registerComponent sampleFresh 8 none).state.registry.types
      (effectiveName ((registerComponent sampleFresh 8 none).state.klass 1)) = false ∧
    ((registerComponent sampleFresh 8 none).state.klass 1).properties
      = some ["max", "hp", "armor"] ∧
    (∀ f ∈ ["max", "hp", "armor"], f ∉ componentReserved) ∧
    (registerComponent sampleFresh 9 none).thrown = none ∧
    "__proto__" ∈ (registerComponent sampleFresh 9 none).state.registry.typeset ∧
    mapGet (registerComponent sampleFresh 9 none).state.registry.typenum "__proto__"
      = some 0 ∧
    effectiveName ((registerComponent sampleFresh 9 none).state.klass 10) = "__proto__" ∧
    (registerComponent (registerComponent sampleFresh 9 none).state 10 none).thrown = none := by
  refine ⟨?_, ?_, ?_, ?_, ?_, ?_, ?_, ?_, ?_, ?_, ?_⟩ <;> decide

/-- C2, amended: in a registry where no class has been registered under the name
`hasOwnProperty` or `__proto__` (`types` has no own key `hasOwnProperty` and still has its
original prototype), `registerComponent(klass)` throws exactly when the effective name of the
class is already a tag or a component type of the registry, or `klass.properties` is not an
object, or some field of `klass.properties` is in `componentReserved`. -/
theorem C2_registerComponent_throws_iff (s : Runtime) (k : ClassRef) (spinup : Option Nat)
    (hown : mapHas s.registry.types "hasOwnProperty" = false)
    (hproto : s.registry.typesProto = none) :
    (registerComponent s k spinup).thrown ≠ none ↔
      ((effectiveName (s.klass k) ∈ s.registry.tags ∨
          mapHas s.registry.types (effectiveName (s.klass k)) = true) ∨
        (s.klass k).properties = none ∨
        ∃ fields field, (s.klass k).properties = some fields ∧ field ∈ fields ∧
          field ∈ componentReserved) := by
  rcases registerComponent_cases s k spinup with
    ⟨h1, e⟩ | ⟨_, h0, _⟩ | ⟨_, _, h2, e⟩ | ⟨_, _, _, hb, _⟩ | ⟨_, _, _, _, hp, e⟩ |
    ⟨fields, field, _, _, _, _, hp, hf, e⟩ | ⟨fields, h1, _, h2, _, hp, hf, e⟩
  · rw [e]
    simp [h1]
  · rw [hown] at h0
    exact Bool.noConfusion h0
  · rw [e]
    simp [h2]
  · rw [hproto] at hb
    exact Bool.noConfusion hb.1
  · rw [e]
    simp [hp]
  · rw [e]
    have hmem : field ∈ fields := List.mem_of_find?_eq_some hf
    have hres : field ∈ componentReserved := by
      simpa using List.find?_some hf
    simp only [ne_eq, reduceCtorEq, not_false_eq_true, true_iff]
    exact Or.inr (Or.inr ⟨fields, field, hp, hmem, hres⟩)
  · rw [e]
    simp only [ne_eq, not_true_eq_false, false_iff]
    rintro ((h | h) | h | ⟨fs, f, hfs, hmem, hres⟩)
    · exact h1 h
    · rw [h2] at h
      exact Bool.noConfusion h
    · rw [hp] at h
      exact Option.noConfusion h
    · rw [hp] at hfs
      have hfs2 : fields = fs := Option.some.inj hfs
      subst hfs2
      have hnone := List.find?_eq_none.mp hf f hmem
      simp only [decide_eq_true_eq] at hnone
      exact hnone hres

/-- C2, amended, at `registerComponent(Colour)` after `Color`, whose type name is `Colour`, was
registered: the call throws and the name is a component type. -/
theorem C2_registerComponent_throws_iff_witness :
    mapHas (registerComponent sampleFresh 2 none).state.registry.types "hasOwnProperty"
      = false ∧
    (registerComponent sampleFresh 2 none).state.registry.typesProto = none ∧
    ((registerComponent (registerComponent sampleFresh 2 none).state 6 none).thrown ≠ none ↔
      ((effectiveName ((registerComponent sampleFresh 2 none).state.klass 6)
            ∈ (registerComponent sampleFresh 2 none).state.registry.tags ∨
          mapHas (registerComponent sampleFresh 2 none).state.registry.types
            (effectiveName ((registerComponent sampleFresh 2 none).state.klass 6)) = true) ∨
        ((registerComponent sampleFresh 2 none).state.klass 6).properties = none ∨
        ∃ fields field,
          ((registerComponent sampleFresh 2 none).state.klass 6).properties = some fields ∧
          field ∈ fields ∧ field ∈ componentReserved)) ∧
    (registerComponent (registerComponent sampleFresh 2 none).state 6 none).thrown
      = some (RegError.componentAlreadyDefined "Colour") :=
  ⟨by decide, by decide,
   C2_registerComponent_throws_iff (registerComponent sampleFresh 2 none).state 6 none
    (by decide) (by decide),
   by decide⟩

/-- C3: a class without `properties` makes `registerComponent` throw `missingProperties`, and a
class with the reserved field `_setup` makes it throw `reservedProperty`; in both cases the
name has by then been added to `typeset`, `types` and `typenum` and `componentNum` has grown,
while no pool has been created. -/
theorem C3_schema_errors_leave_half_a_registration :
    sampleFresh.registry = ComponentRegistry.fresh ∧
    (registerComponent sampleFresh 0 none).thrown = some RegError.missingProperties ∧
    (registerComponent sampleFresh 0 none).state.registry =
      { types := [("FakeTag", 0)], typeset := ["FakeTag"], typenum := [("FakeTag", 0)],
        pool := [], tags := [], componentNum := 1, worlds := [] } ∧
    (registerComponent sampleFresh 4 none).thrown
      = some (RegError.reservedProperty "Bad" "_setup") ∧
    (registerComponent sampleFresh 4 none).state.registry =
      { types := [("Bad", 4)], typeset := ["Bad"], typenum := [("Bad", 0)],
        pool := [], tags := [], componentNum := 1, worlds := [] } := by
  refine ⟨rfl, ?_, ?_, ?_, ?_⟩ <;> decide

/-- The part of C3 that the code keeps: when the name is already a tag or a component type,
`registerComponent` throws and the registry and every world are as they were. -/
theorem registerComponent_duplicate_leaves_state (s : Runtime) (k : ClassRef)
    (spinup : Option Nat)
    (h : effectiveName (s.klass k) ∈ s.registry.tags ∨
      mapHas s.registry.types (effectiveName (s.klass k)) = true) :
    (registerComponent s k spinup).thrown ≠ none ∧
    (registerComponent s k spinup).state.registry = s.registry ∧
    (registerComponent s k spinup).state.world = s.world := by
  rcases registerComponent_cases s k spinup with
    ⟨_, e⟩ | ⟨_, _, e⟩ | ⟨_, _, _, e⟩ | ⟨h1, _, h2, _⟩ | ⟨h1, _, h2, _⟩ |
    ⟨_, _, h1, _, h2, _⟩ | ⟨_, h1, _, h2, _⟩
  · rw [e]
    exact ⟨by simp, rfl, rfl⟩
  · rw [e]
    exact ⟨by simp, rfl, rfl⟩
  · rw [e]
    exact ⟨by simp, rfl, rfl⟩
  all_goals
    rcases h with h | h
    · exact absurd h h1
    · rw [h2] at h
      exact Bool.noConfusion h

/-- C4, as the specification lists the reserved names: `setup` is on the list of the
specification, yet a class whose schema has the fields `setup` and `reset` registers without an
error. And the error need not be the reserved-field error: a class with the reserved field
`_setup` whose name is already registered gets the duplicate-name error, and in a registry
with a type called `hasOwnProperty` it gets the `TypeError` of line 50 although its name is
free. -/
theorem C4_setup_is_not_reserved :
    "setup" ∈ specReservedNames ∧
    (sampleKlass 3).properties = some ["setup", "reset"] ∧
    (registerComponent sampleFresh 3 none).thrown = none ∧
    (sampleKlass 4).properties = some ["x", "_setup"] ∧
    (registerComponent (registerComponent sampleFresh 4 none).state 4 none).thrown
      = some (RegError.componentAlreadyDefined "Bad") ∧
    mapHas (registerComponent sampleFresh 8 none).state.registry.types "Bad" = false ∧
    (registerComponent (registerComponent sampleFresh 8 none).state 4 none).thrown
      = some RegError.classCalledWithoutNew := by
  refine ⟨?_, rfl, ?_, rfl, ?_, ?_, ?_⟩ <;> decide

/-- C4, amended: a class whose schema has a field in `componentReserved` (`constructor`, `init`,
`id`, `type`, `key`, `destroy`, `getObject`, `_setup`, `clear`, `_reset`, `update`, `clone`,
`prototype`) makes `registerComponent` throw. When the name of the class is not yet a tag or a
component type, and no class has been registered under the name `hasOwnProperty` or
`__proto__`, the error is the reserved-field error and names the first reserved field of the
schema. -/
theorem C4_reserved_field_throws (s : Runtime) (k : ClassRef) (spinup : Option Nat)
    (fields : List String) (field : String)
    (hp : (s.klass k).properties = some fields) (hf : field ∈ fields)
    (hr : field ∈ componentReserved) :
    (registerComponent s k spinup).thrown ≠ none ∧
    (effectiveName (s.klass k) ∉ s.registry.tags →
      mapHas s.registry.types (effectiveName (s.klass k)) = false →
      mapHas s.registry.types "hasOwnProperty" = false →
      s.registry.typesProto = none →
      ∃ g, fields.find? (fun f => decide (f ∈ componentReserved)) = some g ∧
        g ∈ fields ∧ g ∈ componentReserved ∧
        (registerComponent s k spinup).thrown
          = some (RegError.reservedProperty (effectiveName (s.klass k)) g)) := by
  rcases registerComponent_cases s k spinup with
    ⟨h1, e⟩ | ⟨_, h0, e⟩ | ⟨_, _, h2, e⟩ | ⟨_, _, _, hb, e⟩ | ⟨_, _, _, _, hp2, _⟩ |
    ⟨fs, g, _, _, _, _, hp2, hg, e⟩ | ⟨fs, _, _, _, _, hp2, hg, _⟩
  · rw [e]
    exact ⟨by simp, fun h => absurd h1 h⟩
  · rw [e]
    refine ⟨by simp, fun _ _ h _ => ?_⟩
    rw [h0] at h
    exact Bool.noConfusion h
  · rw [e]
    refine ⟨by simp, fun _ h => ?_⟩
    rw [h2] at h
    exact Bool.noConfusion h
  · rw [e]
    refine ⟨by simp, fun _ _ _ h => ?_⟩
    rw [h] at hb
    exact Bool.noConfusion hb.1
  · rw [hp] at hp2
    exact Option.noConfusion hp2
  · rw [hp] at hp2
    have hfs : fields = fs := Option.some.inj hp2
    subst hfs
    rw [e]
    refine ⟨by simp, fun _ _ _ _ => ⟨g, hg, List.mem_of_find?_eq_some hg, ?_, rfl⟩⟩
    simpa using List.find?_some hg
  · rw [hp] at hp2
    have hfs : fields = fs := Option.some.inj hp2
    subst hfs
    have hnone := List.find?_eq_none.mp hg field hf
    simp only [decide_eq_true_eq] at hnone
    exact absurd hr hnone

/-- C4, amended, at the class `Bad` with schema fields `x` and `_setup` on a fresh registry. -/
theorem C4_reserved_field_throws_witness :
    (registerComponent sampleFresh 4 none).thrown ≠ none ∧
    (effectiveName (sampleFresh.klass 4) ∉ sampleFresh.registry.tags →
      mapHas sampleFresh.registry.types (effectiveName (sampleFresh.klass 4)) = false →
      mapHas sampleFresh.registry.types "hasOwnProperty" = false →
      sampleFresh.registry.typesProto = none →
      ∃ g, ["x", "_setup"].find? (fun f => decide (f ∈ componentReserved)) = some g ∧
        g ∈ ["x", "_setup"] ∧ g ∈ componentReserved ∧
        (registerComponent sampleFresh 4 none).thrown
          = some (RegError.reservedProperty (effectiveName (sampleFresh.klass 4)) g)) ∧
    (registerComponent sampleFresh 4 none).thrown
      = some (RegError.reservedProperty "Bad" "_setup") :=
  ⟨(C4_reserved_field_throws sampleFresh 4 none ["x", "_setup"] "_setup" rfl (by decide)
      (by decide)).1,
   (C4_reserved_field_throws sampleFresh 4 none ["x", "_setup"] "_setup" rfl (by decide)
      (by decide)).2,
   by decide⟩

/-- C7: for pairwise distinct names, none of them in `typeset`, `registerTags(...names)` does
not throw; the name at position `i` gets bit-index `componentNum + i` (pre-state
`componentNum`); every name is in `tags` and `typeset` afterwards; `componentNum` grows by the
number of names; every attached world has an empty index set under every name; and `types`
and `pool` are left as they were. -/
theorem C7_registerTags_assigns_consecutive_indices (s : Runtime) (names : List String)
    (hnodup : names.Nodup) (hfree : ∀ n ∈ names, n ∉ s.registry.typeset) :
    (registerTags s names).thrown = none ∧
    (∀ i n, names[i]? = some n →
      mapGet (registerTags s names).state.registry.typenum n
        = some (s.registry.componentNum + i)) ∧
    (∀ n ∈ names, n ∈ (registerTags s names).state.registry.tags ∧
      n ∈ (registerTags s names).state.registry.typeset) ∧
    (registerTags s names).state.registry.componentNum
      = s.registry.componentNum + names.length ∧
    (∀ n ∈ names, ∀ w ∈ (registerTags s names).state.registry.worlds,
      mapGet ((registerTags s names).state.world w).entitiesByComponent n = some []) ∧
    (registerTags s names).state.registry.types = s.registry.types ∧
    (registerTags s names).state.registry.pool = s.registry.pool := by
  induction names generalizing s with
  | nil =>
    refine ⟨rfl, ?_, ?_, rfl, ?_, rfl, rfl⟩
    · intro i n h
      simp at h
    · intro n h
      simp at h
    · intro n h
      simp at h
  | cons hd tl ih =>
    have hhd : hd ∉ s.registry.typeset := hfree hd (List.mem_cons_self _ _)
    have hnd := List.nodup_cons.mp hnodup
    have hfree2 : ∀ n ∈ tl, n ∉ (registerTag s hd).registry.typeset := by
      intro n hn hmem
      simp only [registerTag, mem_setAdd] at hmem
      rcases hmem with h | h
      · exact hfree n (List.mem_cons_of_mem _ hn) h
      · exact hnd.1 (h ▸ hn)
    obtain ⟨i1, i2, i3, i4, i5, i6, i7⟩ := ih (registerTag s hd) hnd.2 hfree2
    rw [registerTags_cons_free s hd tl hhd]
    refine ⟨i1, ?_, ?_, ?_, ?_, i6, i7⟩
    · intro i n h
      cases i with
      | zero =>
        simp only [List.getElem?_cons_zero, Option.some.injEq] at h
        subst h
        rw [registerTags_typenum_of_not_mem _ _ _ hnd.1]
        simp [registerTag, mapGet_mapSet_self]
      | succ m =>
        simp only [List.getElem?_cons_succ] at h
        rw [i2 m n h]
        simp only [registerTag]
        congr 1
        omega
    · intro n hn
      rcases List.mem_cons.mp hn with h | h
      · subst h
        constructor
        · apply registerTags_tags_mono
          simp [registerTag, mem_setAdd]
        · apply registerTags_typeset_mono
          simp [registerTag, mem_setAdd]
      · exact i3 n h
    · rw [i4]
      simp only [registerTag, List.length_cons]
      omega
    · intro n hn w hw
      rcases List.mem_cons.mp hn with h | h
      · subst h
        rw [registerTags_worlds] at hw
        rw [registerTags_slot_of_not_mem _ _ _ _ hnd.1]
        exact seedWorlds_get_self _ _ _ _ (Or.inl hw)
      · exact i5 n h w hw

/-- C7, at `registerTags("NPC", "Enemy", "Player")` after a world was attached and `Health`
registered. -/
theorem C7_registerTags_assigns_consecutive_indices_witness :
    (registerTags (runCalls sampleFresh [Call.addWorld 0, Call.registerComponent 1 none])
      ["NPC", "Enemy", "Player"]).thrown = none ∧
    mapGet (registerTags (runCalls sampleFresh [Call.addWorld 0, Call.registerComponent 1 none])
      ["NPC", "Enemy", "Player"]).state.registry.typenum "Player" = some (1 + 2) :=
  ⟨(C7_registerTags_assigns_consecutive_indices
      (runCalls sampleFresh [Call.addWorld 0, Call.registerComponent 1 none])
      ["NPC", "Enemy", "Player"] (by decide) (by decide)).1,
   (C7_registerTags_assigns_consecutive_indices
      (runCalls sampleFresh [Call.addWorld 0, Call.registerComponent 1 none])
      ["NPC", "Enemy", "Player"] (by decide) (by decide)).2.1 2 "Player" (by decide)⟩

/-- C5, as stated: with `Enemy` registered and a world attached, `registerTags("NPC", "Enemy")`
throws at `Enemy`, but `NPC` has by then been added to `typeset`, `typenum` and `tags`,
`componentNum` has grown from 1 to 2, and the attached world has a slot for `NPC`. -/
theorem C5_registerTags_keeps_earlier_names :
    (runCalls sampleFresh [Call.addWorld 0, Call.registerTags ["Enemy"]]).registry =
      { types := [], typeset := ["Enemy"], typenum := [("Enemy", 0)], pool := [],
        tags := ["Enemy"], componentNum := 1, worlds := [0] } ∧
    ((runCalls sampleFresh [Call.addWorld 0, Call.registerTags ["Enemy"]]).world 0
      ).entitiesByComponent = [("Enemy", [])] ∧
    (registerTags (runCalls sampleFresh [Call.addWorld 0, Call.registerTags ["Enemy"]])
      ["NPC", "Enemy"]).thrown = some (RegError.tagNameTaken "Enemy") ∧
    (registerTags (runCalls sampleFresh [Call.addWorld 0, Call.registerTags ["Enemy"]])
      ["NPC", "Enemy"]).state.registry =
      { types := [], typeset := ["Enemy", "NPC"], typenum := [("Enemy", 0), ("NPC", 1)],
        pool := [], tags := ["Enemy", "NPC"], componentNum := 2, worlds := [0] } ∧
    ((registerTags (runCalls sampleFresh [Call.addWorld 0, Call.registerTags ["Enemy"]])
      ["NPC", "Enemy"]).state.world 0).entitiesByComponent = [("Enemy", []), ("NPC", [])] := by
  refine ⟨?_, ?_, ?_, ?_, ?_⟩ <;> decide

/-- C5, amended: when some name of the call is already in `typeset`, `registerTags(...names)`
throws. It throws at the first name that is in `typeset` or repeats an earlier name of the
call: the names before it (pairwise distinct, none in `typeset`) are registered as by a
successful `registerTags` call with just those names, and the state is left there, so the
offending name and the names after it add nothing. When the first name of the call is the
offending one, the whole state is unchanged. -/
theorem C5_registerTags_throws_at_first_taken (s : Runtime) (names : List String)
    (h : ∃ n ∈ names, n ∈ s.registry.typeset) :
    ∃ before tag after, names = before ++ tag :: after ∧
      before.Nodup ∧ (∀ t ∈ before, t ∉ s.registry.typeset) ∧
      (tag ∈ s.registry.typeset ∨ tag ∈ before) ∧
      (registerTags s before).thrown = none ∧
      registerTags s names =
        { thrown := some (RegError.tagNameTaken tag), state := (registerTags s before).state } ∧
      (before = [] → (registerTags s names).state = s) := by
  induction names generalizing s with
  | nil =>
    obtain ⟨n, hn, _⟩ := h
    simp at hn
  | cons hd tl ih =>
    by_cases hhd : hd ∈ s.registry.typeset
    · refine ⟨[], hd, tl, rfl, List.nodup_nil, ?_, Or.inl hhd, rfl, ?_, ?_⟩
      · intro t ht
        simp at ht
      · rw [registerTags_cons_taken s hd tl hhd]
        rfl
      · intro _
        rw [registerTags_cons_taken s hd tl hhd]
    · have h2 : ∃ n ∈ tl, n ∈ (registerTag s hd).registry.typeset := by
        obtain ⟨n, hn, hmem⟩ := h
        rcases List.mem_cons.mp hn with e | e
        · exact absurd (e ▸ hmem) hhd
        · refine ⟨n, e, ?_⟩
          simp only [registerTag, mem_setAdd]
          exact Or.inl hmem
      obtain ⟨before, tag, after, e1, e2, e3, e4, e5, e6, _⟩ := ih (registerTag s hd) h2
      have hfree : ∀ t ∈ before, t ∉ s.registry.typeset ∧ t ≠ hd := by
        intro t ht
        have := e3 t ht
        simp only [registerTag, mem_setAdd, not_or] at this
        exact this
      refine ⟨hd :: before, tag, after, ?_, ?_, ?_, ?_, ?_, ?_, ?_⟩
      · rw [e1]
        rfl
      · refine List.nodup_cons.mpr ⟨fun hmem => (hfree hd hmem).2 rfl, e2⟩
      · intro t ht
        rcases List.mem_cons.mp ht with e | e
        · exact e ▸ hhd
        · exact (hfree t e).1
      · rcases e4 with e | e
        · simp only [registerTag, mem_setAdd] at e
          rcases e with e | e
          · exact Or.inl e
          · exact Or.inr (e ▸ List.mem_cons_self _ _)
        · exact Or.inr (List.mem_cons_of_mem _ e)
      · rw [registerTags_cons_free s hd before hhd]
        exact e5
      · rw [registerTags_cons_free s hd tl hhd, registerTags_cons_free s hd before hhd]
        exact e6
      · intro e
        exact absurd e (List.cons_ne_nil _ _)

/-- C5, amended, at `registerTags("NPC", "Enemy")` with `Enemy` already registered. -/
theorem C5_registerTags_throws_at_first_taken_witness :
    (∃ n ∈ ["NPC", "Enemy"],
      n ∈ (runCalls sampleFresh [Call.addWorld 0, Call.registerTags ["Enemy"]]
        ).registry.typeset) ∧
    ∃ before tag after, ["NPC", "Enemy"] = before ++ tag :: after ∧
      before.Nodup ∧
      (∀ t ∈ before,
        t ∉ (runCalls sampleFresh [Call.addWorld 0, Call.registerTags ["Enemy"]]
          ).registry.typeset) ∧
      (tag ∈ (runCalls sampleFresh [Call.addWorld 0, Call.registerTags ["Enemy"]]
          ).registry.typeset ∨ tag ∈ before) ∧
      (registerTags (runCalls sampleFresh [Call.addWorld 0, Call.registerTags ["Enemy"]])
        before).thrown = none ∧
      registerTags (runCalls sampleFresh [Call.addWorld 0, Call.registerTags ["Enemy"]])
          ["NPC", "Enemy"] =
        { thrown := some (RegError.tagNameTaken tag),
          state := (registerTags
            (runCalls sampleFresh [Call.addWorld 0, Call.registerTags ["Enemy"]])
            before).state } ∧
      (before = [] →
        (registerTags (runCalls sampleFresh [Call.addWorld 0, Call.registerTags ["Enemy"]])
          ["NPC", "Enemy"]).state
          = runCalls sampleFresh [Call.addWorld 0, Call.registerTags ["Enemy"]]) :=
  ⟨⟨"Enemy", by decide, by decide⟩,
   C5_registerTags_throws_at_first_taken
    (runCalls sampleFresh [Call.addWorld 0, Call.registerTags ["Enemy"]]) ["NPC", "Enemy"]
    ⟨"Enemy", by decide, by decide⟩⟩

/-- C8: after `addWorld(world)` the world is in `worlds`, it has an empty index set under every
name of `typeset`, and `typeset`, `types`, `typenum`, `tags`, `pool` and `componentNum` are
what they were. -/
theorem C8_addWorld_seeds_known_types (s : Runtime) (w : WorldRef) :
    w ∈ (addWorld s w).registry.worlds ∧
    (∀ n ∈ (addWorld s w).registry.typeset,
      mapGet ((addWorld s w).world w).entitiesByComponent n = some []) ∧
    (addWorld s w).registry.typeset = s.registry.typeset ∧
    (addWorld s w).registry.types = s.registry.types ∧
    (addWorld s w).registry.typenum = s.registry.typenum ∧
    (addWorld s w).registry.tags = s.registry.tags ∧
    (addWorld s w).registry.pool = s.registry.pool ∧
    (addWorld s w).registry.componentNum = s.registry.componentNum := by
  refine ⟨?_, ?_, rfl, rfl, rfl, rfl, rfl, rfl⟩
  · simp [addWorld, mem_setAdd]
  · intro n hn
    have hn2 : n ∈ s.registry.typeset := hn
    simp only [addWorld, Function.update_same]
    exact seedTypes_get_of_mem _ _ _ (Or.inl hn2)

/-- C6, as stated: once a class called `hasOwnProperty` is registered, `registerComponent(Armor)`
throws although `Armor` has a schema, no reserved field and a name that is not registered; and
once a class called `__proto__` is registered, so does `registerComponent` of a class called
`length`, while `types` has no key for the name `__proto__` itself. -/
theorem C6_special_names_make_registration_throw :
    (registerComponent sampleFresh 8 none).thrown = none ∧
    ((registerComponent sampleFresh 8 none).state.klass 5).properties
      = some ["name", "ac"] ∧
    (∀ f ∈ ["name", "ac"], f ∉ componentReserved) ∧
    "Armor" ∉ (registerComponent sampleFresh 8 none).state.registry.tags ∧
    mapHas (registerComponent sampleFresh 8 none).state.registry.types "Armor" = false ∧
    "Armor" ∉ (registerComponent sampleFresh 8 none).state.registry.typeset ∧
    (registerComponent (registerComponent sampleFresh 8 none).state 5 none).thrown
      = some RegError.classCalledWithoutNew ∧
    (registerComponent sampleFresh 9 none).thrown = none ∧
    mapGet (registerComponent sampleFresh 9 none).state.registry.types "__proto__" = none ∧
    ((registerComponent sampleFresh 9 none).state.klass 13).properties = some ["z"] ∧
    "length" ∉ (registerComponent sampleFresh 9 none).state.registry.tags ∧
    mapHas (registerComponent sampleFresh 9 none).state.registry.types "length" = false ∧
    "length" ∉ (registerComponent sampleFresh 9 none).state.registry.typeset ∧
    (registerComponent (registerComponent sampleFresh 9 none).state 13 none).thrown
      = some (RegError.readOnlyProperty "length") := by
  refine ⟨?_, ?_, ?_, ?_, ?_, ?_, ?_, ?_, ?_, ?_, ?_, ?_, ?_, ?_⟩ <;> decide

/-- C6, amended: in a registry where no class has been registered under the name
`hasOwnProperty` or `__proto__`, for a class with a property schema, no reserved field and an
effective name that is neither a tag nor a component type yet and is not `__proto__`,
`registerComponent(klass)` does not throw, and afterwards `typenum[name]` and `klass.bitdigit` are the pre-state
`componentNum`, `componentNum` is larger by one, the name is in `typeset`, `types[name]` is the
class, `pool` has an entry for the name, every attached world has an empty index set under the
name, and the `typenum` entries and index slots of all other names are unchanged. -/
theorem C6_registerComponent_registers (s : Runtime) (k : ClassRef) (spinup : Option Nat)
    (fields : List String)
    (hown : mapHas s.registry.types "hasOwnProperty" = false)
    (hproto : s.registry.typesProto = none)
    (hname : effectiveName (s.klass k) ≠ "__proto__")
    (hp : (s.klass k).properties = some fields)
    (hres : ∀ f ∈ fields, f ∉ componentReserved)
    (htag : effectiveName (s.klass k) ∉ s.registry.tags)
    (htype : mapHas s.registry.types (effectiveName (s.klass k)) = false) :
    (registerComponent s k spinup).thrown = none ∧
    mapGet (registerComponent s k spinup).state.registry.typenum (effectiveName (s.klass k))
      = some s.registry.componentNum ∧
    ((registerComponent s k spinup).state.klass k).bitdigit = some s.registry.componentNum ∧
    (registerComponent s k spinup).state.registry.componentNum
      = s.registry.componentNum + 1 ∧
    effectiveName (s.klass k) ∈ (registerComponent s k spinup).state.registry.typeset ∧
    mapGet (registerComponent s k spinup).state.registry.types (effectiveName (s.klass k))
      = some k ∧
    mapHas (registerComponent s k spinup).state.registry.pool (effectiveName (s.klass k))
      = true ∧
    (∀ w ∈ (registerComponent s k spinup).state.registry.worlds,
      mapGet ((registerComponent s k spinup).state.world w).entitiesByComponent
        (effectiveName (s.klass k)) = some []) ∧
    (∀ n, n ≠ effectiveName (s.klass k) →
      mapGet (registerComponent s k spinup).state.registry.typenum n
        = mapGet s.registry.typenum n) ∧
    (∀ w n, n ≠ effectiveName (s.klass k) →
      mapGet ((registerComponent s k spinup).state.world w).entitiesByComponent n
        = mapGet (s.world w).entitiesByComponent n) := by
  rcases registerComponent_cases s k spinup with
    ⟨h1, _⟩ | ⟨_, h0, _⟩ | ⟨_, _, h2, _⟩ | ⟨_, _, _, hb, _⟩ | ⟨_, _, _, _, hp2, _⟩ |
    ⟨fs, g, _, _, _, _, hp2, hg, _⟩ | ⟨fs, _, _, _, _, _, _, e⟩
  · exact absurd h1 htag
  · rw [hown] at h0
    exact Bool.noConfusion h0
  · rw [htype] at h2
    exact Bool.noConfusion h2
  · rw [hproto] at hb
    exact Bool.noConfusion hb.1
  · rw [hp] at hp2
    exact Option.noConfusion hp2
  · rw [hp] at hp2
    have hfs : fields = fs := Option.some.inj hp2
    subst hfs
    have hg2 : g ∈ componentReserved := by
      simpa using List.find?_some hg
    exact absurd hg2 (hres g (List.mem_of_find?_eq_some hg))
  · rw [e]
    refine ⟨rfl, ?_, ?_, rfl, ?_, ?_, ?_, ?_, ?_, ?_⟩
    · simp [installPool, allocated, renameKlass, mapGet_mapSet_self]
    · have := allocated_klass s k (effectiveName (s.klass k))
      simp only [installPool]
      rw [this]
    · simp [installPool, allocated, renameKlass, mem_setAdd]
    · simp [installPool, allocated, renameKlass, hname, mapGet_mapSet_self]
    · simp [installPool, mapHas, mapGet_mapSet_self]
    · intro w hw
      exact seedWorlds_get_self _ _ _ _ (Or.inl hw)
    · intro n hn
      simp [installPool, allocated, renameKlass, mapGet_mapSet_of_ne _ _ _ _ hn]
    · intro w n hn
      exact seedWorlds_get_of_ne _ _ _ _ _ hn

/-- C6, amended, at `registerComponent(Color)` (type name `Colour`) on a registry shared by two
worlds, after the tag `NPC` was registered. -/
theorem C6_registerComponent_registers_witness :
    (registerComponent
      (runCalls sampleFresh [Call.addWorld 0, Call.addWorld 1, Call.registerTags ["NPC"]])
      2 none).thrown = none ∧
    mapGet (registerComponent
      (runCalls sampleFresh [Call.addWorld 0, Call.addWorld 1, Call.registerTags ["NPC"]])
      2 none).state.registry.typenum "Colour" = some 1 ∧
    mapGet (registerComponent
      (runCalls sampleFresh [Call.addWorld 0, Call.addWorld 1, Call.registerTags ["NPC"]])
      2 none).state.registry.types "Colour" = some 2 ∧
    mapGet ((registerComponent
      (runCalls sampleFresh [Call.addWorld 0, Call.addWorld 1, Call.registerTags ["NPC"]])
      2 none).state.world 1).entitiesByComponent "Colour" = some [] :=
  ⟨(C6_registerComponent_registers
      (runCalls sampleFresh [Call.addWorld 0, Call.addWorld 1, Call.registerTags ["NPC"]])
      2 none ["r", "g", "b"] (by decide) (by decide) (by decide) (by decide) (by decide)
      (by decide) (by decide)).1,
   (C6_registerComponent_registers
      (runCalls sampleFresh [Call.addWorld 0, Call.addWorld 1, Call.registerTags ["NPC"]])
      2 none ["r", "g", "b"] (by decide) (by decide) (by decide) (by decide) (by decide)
      (by decide) (by decide)).2.1,
   (C6_registerComponent_registers
      (runCalls sampleFresh [Call.addWorld 0, Call.addWorld 1, Call.registerTags ["NPC"]])
      2 none ["r", "g", "b"] (by decide) (by decide) (by decide) (by decide) (by decide)
      (by decide) (by decide)).2.2.2.2.2.1,
   (C6_registerComponent_registers
      (runCalls sampleFresh [Call.addWorld 0, Call.addWorld 1, Call.registerTags ["NPC"]])
      2 none ["r", "g", "b"] (by decide) (by decide) (by decide) (by decide) (by decide)
      (by decide) (by decide)).2.2.2.2.2.2.2.1 1 (by decide)⟩

/-! ### Calls that do not register the name `__proto__` -/

theorem applyTypeName_idem (k : Klass) : applyTypeName (applyTypeName k) = applyTypeName k := by
  unfold applyTypeName
  cases ht : k.typeName with
  | none => simp [ht]
  | some t =>
    by_cases h : t ≠ "" ∧ k.name ≠ t
    · simp [h, ht]
    · simp [h, ht]

theorem effectiveName_with_bitdigit (k : Klass) (b : Option Nat) :
    effectiveName { k with bitdigit := b } = effectiveName k := by
  unfold effectiveName applyTypeName
  cases ht : k.typeName with
  | none => simp [ht]
  | some t =>
    by_cases h : t ≠ "" ∧ k.name ≠ t
    · simp [h, ht]
    · simp [h, ht]

theorem registerTags_klass (s : Runtime) (tags : List String) :
    (registerTags s tags).state.klass = s.klass :=
  registerTags_preserves (fun t => t.klass = s.klass) tags (fun _ _ _ _ h => h) s rfl

theorem registerComponent_klass_of_ne (s : Runtime) (k other : ClassRef) (spinup : Option Nat)
    (h : other ≠ k) : (registerComponent s k spinup).state.klass other = s.klass other := by
  rcases registerComponent_cases s k spinup with
    ⟨_, e⟩ | ⟨_, _, e⟩ | ⟨_, _, _, e⟩ | ⟨_, _, _, _, e⟩ | ⟨_, _, _, _, _, e⟩ |
    ⟨_, _, _, _, _, _, _, _, e⟩ | ⟨_, _, _, _, _, _, _, e⟩ <;>
  · rw [e]
    simp [installPool, allocated, addTypeName, renameKlass, Function.update_noteq h]

theorem registerComponent_effectiveName (s : Runtime) (k other : ClassRef)
    (spinup : Option Nat) :
    effectiveName ((registerComponent s k spinup).state.klass other)
      = effectiveName (s.klass other) := by
  by_cases h : other = k
  · subst h
    have hren : effectiveName (applyTypeName (s.klass other)) = effectiveName (s.klass other) := by
      simp [effectiveName, applyTypeName_idem]
    have hbit : ∀ b : Option Nat,
        effectiveName { applyTypeName (s.klass other) with bitdigit := b }
          = effectiveName (s.klass other) := by
      intro b
      rw [effectiveName_with_bitdigit]
      exact hren
    rcases registerComponent_cases s other spinup with
      ⟨_, e⟩ | ⟨_, _, e⟩ | ⟨_, _, _, e⟩ | ⟨_, _, _, _, e⟩ | ⟨_, _, _, _, _, e⟩ |
      ⟨_, _, _, _, _, _, _, _, e⟩ | ⟨_, _, _, _, _, _, _, e⟩
    · rw [e]; simpa [renameKlass] using hren
    · rw [e]; simpa [renameKlass] using hren
    · rw [e]; simpa [renameKlass] using hren
    · rw [e]; simpa [addTypeName, renameKlass] using hren
    · rw [e, allocated_klass]; exact hbit _
    · rw [e, allocated_klass]; exact hbit _
    · rw [e]
      have := allocated_klass s other (effectiveName (s.klass other))
      simp only [installPool]
      rw [this]
      exact hbit _
  · rw [registerComponent_klass_of_ne _ _ _ _ h]

theorem apply_effectiveName (s : Runtime) (c : Call) (k : ClassRef) :
    effectiveName ((c.apply s).klass k) = effectiveName (s.klass k) := by
  cases c with
  | registerComponent k2 spinup => exact registerComponent_effectiveName s k2 k spinup
  | registerTags tags =>
    simp only [Call.apply]
    rw [registerTags_klass]
  | addWorld w => rfl
  | clear => rfl

theorem runCalls_effectiveName (s : Runtime) (calls : List Call) (k : ClassRef) :
    effectiveName ((runCalls s calls).klass k) = effectiveName (s.klass k) := by
  induction calls generalizing s with
  | nil => rfl
  | cons c rest ih =>
    have step : runCalls s (c :: rest) = runCalls (c.apply s) rest := rfl
    rw [step, ih, apply_effectiveName]

theorem noProtoName_head (klass : ClassRef → Klass) (c : Call) (rest : List Call)
    (h : NoProtoName klass (c :: rest)) :
    ∀ k spinup, c = Call.registerComponent k spinup → effectiveName (klass k) ≠ "__proto__" := by
  intro k spinup e
  exact h k spinup (e ▸ List.mem_cons_self _ _)

theorem noProtoName_tail (s : Runtime) (c : Call) (rest : List Call)
    (h : NoProtoName s.klass (c :: rest)) : NoProtoName (c.apply s).klass rest := by
  intro k spinup hmem
  rw [apply_effectiveName]
  exact h k spinup (List.mem_cons_of_mem _ hmem)

theorem registerTags_typesProto (s : Runtime) (tags : List String) :
    (registerTags s tags).state.registry.typesProto = s.registry.typesProto :=
  registerTags_preserves (fun t => t.registry.typesProto = s.registry.typesProto) tags
    (fun _ _ _ _ h => h) s rfl

/-- The prototype of `types` stays as it was under every call that does not register a class
under the name `__proto__`. -/
theorem apply_typesProto (s : Runtime) (c : Call) (h : s.registry.typesProto = none)
    (hc : ∀ k spinup, c = Call.registerComponent k spinup →
      effectiveName (s.klass k) ≠ "__proto__") :
    (c.apply s).registry.typesProto = none := by
  cases c with
  | registerComponent k spinup =>
    have hn := hc k spinup rfl
    simp only [Call.apply]
    rcases registerComponent_cases s k spinup with
      ⟨_, e⟩ | ⟨_, _, e⟩ | ⟨_, _, _, e⟩ | ⟨_, _, _, _, e⟩ | ⟨_, _, _, _, _, e⟩ |
      ⟨_, _, _, _, _, _, _, _, e⟩ | ⟨_, _, _, _, _, _, _, e⟩ <;>
    · rw [e]
      simp [installPool, allocated, addTypeName, renameKlass, hn, h]
  | registerTags tags =>
    simp only [Call.apply]
    rw [registerTags_typesProto]
    exact h
  | addWorld w => exact h
  | clear => rfl

/-! ### Index slots of attached worlds -/

theorem slotsSeeded_addWorld (s : Runtime) (w : WorldRef) (h : SlotsSeeded s) :
    SlotsSeeded (addWorld s w) := by
  intro x hx n hn
  have hn2 : n ∈ s.registry.typeset := hn
  by_cases hxw : x = w
  · subst hxw
    simp only [addWorld, Function.update_same, mapHas]
    rw [seedTypes_get_of_mem _ _ _ (Or.inl hn2)]
    rfl
  · have hx2 : x ∈ s.registry.worlds := by
      simp only [addWorld, mem_setAdd] at hx
      rcases hx with hx | hx
      · exact hx
      · exact absurd hx hxw
    simp only [addWorld, Function.update_noteq hxw]
    exact h x hx2 n hn2

theorem slotsSeeded_seedWorlds (s t : Runtime) (name : String)
    (hworlds : t.registry.worlds = s.registry.worlds)
    (htypeset : t.registry.typeset = setAdd s.registry.typeset name)
    (hworld : t.world = seedWorlds name s.world s.registry.worlds)
    (h : SlotsSeeded s) : SlotsSeeded t := by
  intro x hx n hn
  rw [hworlds] at hx
  rw [htypeset, mem_setAdd] at hn
  rw [hworld]
  rcases hn with hn | hn
  · exact seedWorlds_has_mono _ _ _ _ _ (h x hx n hn)
  · subst hn
    simp [mapHas, seedWorlds_get_self _ s.world s.registry.worlds x (Or.inl hx)]

theorem slotsSeeded_registerTags (s : Runtime) (tags : List String) (h : SlotsSeeded s) :
    SlotsSeeded (registerTags s tags).state :=
  registerTags_preserves SlotsSeeded tags
    (fun t tag _ _ ht => slotsSeeded_seedWorlds t (registerTag t tag) tag rfl rfl rfl ht) s h

theorem slotsSeeded_apply (s : Runtime) (c : Call) (hc : c.schemaError s = false)
    (hproto : s.registry.typesProto = none) (h : SlotsSeeded s) : SlotsSeeded (c.apply s) := by
  cases c with
  | registerComponent k spinup =>
    simp only [Call.schemaError] at hc
    simp only [Call.apply]
    rcases registerComponent_cases s k spinup with
      ⟨_, e⟩ | ⟨_, _, e⟩ | ⟨_, _, _, e⟩ | ⟨_, _, _, hb, _⟩ | ⟨_, _, _, _, _, e⟩ |
      ⟨_, _, _, _, _, _, _, _, e⟩ | ⟨_, _, _, _, _, _, _, e⟩
    · rw [e]
      exact h
    · rw [e]
      exact h
    · rw [e]
      exact h
    · rw [hproto] at hb
      exact Bool.noConfusion hb.1
    · rw [e] at hc
      simp at hc
    · rw [e] at hc
      simp at hc
    · rw [e]
      exact slotsSeeded_seedWorlds s _ (effectiveName (s.klass k)) rfl rfl rfl h
  | registerTags tags => exact slotsSeeded_registerTags s tags h
  | addWorld w => exact slotsSeeded_addWorld s w h
  | clear =>
    intro x _ n hn
    simp [Call.apply, clear] at hn

/-- The part of C9 that the code keeps: as long as no `registerComponent` call ends in a schema
error (missing `properties` or a reserved field) and no class is registered under the name
`__proto__`, every attached world has a slot for every name of `typeset` after any sequence
of calls. -/
theorem slotsSeeded_runCalls (s : Runtime) (calls : List Call) (hc : noSchemaError s calls)
    (hnames : NoProtoName s.klass calls) (hproto : s.registry.typesProto = none)
    (h : SlotsSeeded s) : SlotsSeeded (runCalls s calls) := by
  induction calls generalizing s with
  | nil => exact h
  | cons c rest ih =>
    exact ih (c.apply s) hc.2 (noProtoName_tail s c rest hnames)
      (apply_typesProto s c hproto (noProtoName_head s.klass c rest hnames))
      (slotsSeeded_apply s c hc.1 hproto h)

/-- C9: with world `0` attached to a fresh registry, `registerComponent(FakeTag)` for a class
without `properties` throws; afterwards the world is still attached and `FakeTag` is in
`typeset`, but the world has no index slot for `FakeTag`. -/
theorem C9_schema_error_leaves_world_without_slot :
    (registerComponent (runCalls sampleFresh [Call.addWorld 0]) 0 none).thrown
      = some RegError.missingProperties ∧
    (0 : WorldRef) ∈
      (runCalls sampleFresh [Call.addWorld 0, Call.registerComponent 0 none]).registry.worlds ∧
    "FakeTag" ∈
      (runCalls sampleFresh [Call.addWorld 0, Call.registerComponent 0 none]).registry.typeset ∧
    mapHas ((runCalls sampleFresh [Call.addWorld 0, Call.registerComponent 0 none]).world 0
      ).entitiesByComponent "FakeTag" = false := by
  refine ⟨?_, ?_, ?_, ?_⟩ <;> decide

/-! ### Stability of bit-indices -/

theorem typenum_kept_by_call (s : Runtime) (c : Call) (hinv : RegistryInv s.registry)
    (hc : c.isClear = false)
    (hnames : ∀ k spinup, c = Call.registerComponent k spinup →
      effectiveName (s.klass k) ≠ "__proto__")
    (name : String) (i : Nat) (h : mapGet s.registry.typenum name = some i) :
    mapGet (c.apply s).registry.typenum name = some i := by
  have hhas : mapHas s.registry.typenum name = true := by simp [mapHas, h]
  cases c with
  | registerComponent k spinup =>
    have hproto := hnames k spinup rfl
    simp only [Call.apply]
    have hne : effectiveName (s.klass k) ∉ s.registry.tags →
        mapHas s.registry.types (effectiveName (s.klass k)) = false →
        name ≠ effectiveName (s.klass k) := by
      intro h1 h2 e
      rcases hinv.known name hhas with h3 | h3 | h3
      · exact h1 (e ▸ h3)
      · rw [e, h2] at h3
        exact Bool.noConfusion h3
      · exact hproto (e ▸ h3)
    rcases registerComponent_cases s k spinup with
      ⟨_, e⟩ | ⟨_, _, e⟩ | ⟨_, _, _, e⟩ | ⟨_, _, _, _, e⟩ | ⟨h1, _, h2, _, _, e⟩ |
      ⟨_, _, h1, _, h2, _, _, _, e⟩ | ⟨_, h1, _, h2, _, _, _, e⟩
    · rw [e]
      exact h
    · rw [e]
      exact h
    · rw [e]
      exact h
    · rw [e]
      exact h
    · rw [e]
      simpa [allocated, renameKlass, mapGet_mapSet_of_ne _ _ _ _ (hne h1 h2)] using h
    · rw [e]
      simpa [allocated, renameKlass, mapGet_mapSet_of_ne _ _ _ _ (hne h1 h2)] using h
    · rw [e]
      simpa [installPool, allocated, renameKlass,
        mapGet_mapSet_of_ne _ _ _ _ (hne h1 h2)] using h
  | registerTags tags =>
    simp only [Call.apply]
    have key := registerTags_preserves
      (fun t => RegistryInv t.registry ∧ mapGet t.registry.typenum name = some i) tags
      (fun t tag _ hfree ht => by
        refine ⟨registryInv_registerTag t tag ht.1, ?_⟩
        have hne : name ≠ tag := by
          intro e
          apply hfree
          apply ht.1.inTypeset
          rw [← e]
          simp [mapHas, ht.2]
        simpa [registerTag, mapGet_mapSet_of_ne _ _ _ _ hne] using ht.2) s ⟨hinv, h⟩
    exact key.2
  | addWorld w => exact h
  | clear => simp [Call.isClear] at hc

/-- C10, as stated: `Enemy` is given bit-index 1; after `clear()` it has none, and after
registering it again it has bit-index 0. Also without `clear()`: the name `__proto__` is given
bit-index 0 by one registration and bit-index 1 by the next registration under that name. -/
theorem C10_clear_resets_bit_indices :
    mapGet (runCalls sampleFresh [Call.registerTags ["NPC", "Enemy"]]
      ).registry.typenum "Enemy" = some 1 ∧
    mapGet (runCalls sampleFresh [Call.registerTags ["NPC", "Enemy"], Call.clear]
      ).registry.typenum "Enemy" = none ∧
    mapGet (runCalls sampleFresh
      [Call.registerTags ["NPC", "Enemy"], Call.clear, Call.registerTags ["Enemy"]]
      ).registry.typenum "Enemy" = some 0 ∧
    mapGet (runCalls sampleFresh [Call.registerComponent 9 none]
      ).registry.typenum "__proto__" = some 0 ∧
    mapGet (runCalls sampleFresh [Call.registerComponent 9 none, Call.registerComponent 10 none]
      ).registry.typenum "__proto__" = some 1 := by
  refine ⟨?_, ?_, ?_, ?_, ?_⟩ <;> decide

/-- C10, amended: bit-indices are stable as long as `clear()` is not called and no class is
registered under the name `__proto__`. Once a name has a bit-index in a state reached from a
fresh registry (by any calls, `clear` and throwing calls included), it has the same bit-index
after any further `registerComponent`, `registerTags` and `addWorld` calls, none of them for a
class whose effective name is `__proto__`. -/
theorem C10_bit_indices_stable_until_clear (klass : ClassRef → Klass)
    (world : WorldRef → World) (earlier later : List Call) (name : String) (i : Nat)
    (hlater : ∀ c ∈ later, c.isClear = false)
    (hnames : NoProtoName klass later)
    (h : mapGet (runCalls (Runtime.fresh klass world) earlier).registry.typenum name = some i) :
    mapGet (runCalls (Runtime.fresh klass world) (earlier ++ later)).registry.typenum name
      = some i := by
  rw [runCalls_append]
  have hinv := registryInv_runCalls (Runtime.fresh klass world) earlier registryInv_fresh
  have hnames2 : NoProtoName (runCalls (Runtime.fresh klass world) earlier).klass later := by
    intro k spinup hmem
    rw [runCalls_effectiveName]
    exact hnames k spinup hmem
  generalize runCalls (Runtime.fresh klass world) earlier = s at h hinv hnames2
  induction later generalizing s with
  | nil => exact h
  | cons c rest ih =>
    have hc : c.isClear = false := hlater c (List.mem_cons_self _ _)
    exact ih (fun x hx => hlater x (List.mem_cons_of_mem _ hx))
      (fun k spinup hmem => hnames k spinup (List.mem_cons_of_mem _ hmem)) (c.apply s)
      (typenum_kept_by_call s c hinv hc (noProtoName_head s.klass c rest hnames2) name i h)
      (registryInv_apply s c hinv) (noProtoName_tail s c rest hnames2)

/-- C10, amended, at a run whose later part has a throwing `registerComponent`, a throwing
`registerTags` that names `Enemy` again, an `addWorld`, and the registration of a class called
`hasOwnProperty`. -/
theorem C10_bit_indices_stable_until_clear_witness :
    (∀ c ∈ [Call.registerComponent 0 none, Call.registerTags ["Player", "Enemy"],
        Call.addWorld 0, Call.registerComponent 8 none, Call.registerComponent 1 none],
      c.isClear = false) ∧
    NoProtoName sampleKlass
      [Call.registerComponent 0 none, Call.registerTags ["Player", "Enemy"],
        Call.addWorld 0, Call.registerComponent 8 none, Call.registerComponent 1 none] ∧
    mapGet (runCalls sampleFresh [Call.clear, Call.registerTags ["NPC", "Enemy"]]
      ).registry.typenum "Enemy" = some 1 ∧
    mapGet (runCalls sampleFresh
      ([Call.clear, Call.registerTags ["NPC", "Enemy"]] ++
        [Call.registerComponent 0 none, Call.registerTags ["Player", "Enemy"],
          Call.addWorld 0, Call.registerComponent 8 none, Call.registerComponent 1 none])
      ).registry.typenum "Enemy" = some 1 :=
  ⟨by decide,
   by
    intro k spinup hmem
    simp only [List.mem_cons, Call.registerComponent.injEq, reduceCtorEq, List.mem_singleton,
      List.not_mem_nil, or_false, false_or] at hmem
    rcases hmem with ⟨rfl, _⟩ | ⟨rfl, _⟩ | ⟨rfl, _⟩ <;> decide,
   by decide,
   C10_bit_indices_stable_until_clear sampleKlass sampleWorld
    [Call.clear, Call.registerTags ["NPC", "Enemy"]]
    [Call.registerComponent 0 none, Call.registerTags ["Player", "Enemy"],
      Call.addWorld 0, Call.registerComponent 8 none, Call.registerComponent 1 none] "Enemy" 1
    (by decide)
    (by
      intro k spinup hmem
      simp only [List.mem_cons, Call.registerComponent.injEq, reduceCtorEq, List.mem_singleton,
        List.not_mem_nil, or_false, false_or] at hmem
      rcases hmem with ⟨rfl, _⟩ | ⟨rfl, _⟩ | ⟨rfl, _⟩ <;> decide)
    (by decide)⟩

/-! ### The bit-index stored on the class -/

theorem applyTypeName_bitdigit (k : Klass) : (applyTypeName k).bitdigit = k.bitdigit := by
  unfold applyTypeName
  split
  · split <;> rfl
  · rfl

theorem registerComponent_succeeds (s : Runtime) (k : ClassRef) (spinup : Option Nat)
    (fields : List String)
    (hown : mapHas s.registry.types "hasOwnProperty" = false)
    (hproto : s.registry.typesProto = none)
    (hp : (s.klass k).properties = some fields)
    (hres : ∀ f ∈ fields, f ∉ componentReserved)
    (htag : effectiveName (s.klass k) ∉ s.registry.tags)
    (htype : mapHas s.registry.types (effectiveName (s.klass k)) = false) :
    registerComponent s k spinup =
      { thrown := none,
        state := installPool (allocated (renameKlass s k) k (effectiveName (s.klass k)))
          (effectiveName (s.klass k)) spinup } := by
  rcases registerComponent_cases s k spinup with
    ⟨h1, _⟩ | ⟨_, h0, _⟩ | ⟨_, _, h2, _⟩ | ⟨_, _, _, hb, _⟩ | ⟨_, _, _, _, hp2, _⟩ |
    ⟨fs, g, _, _, _, _, hp2, hg, _⟩ | ⟨fs, _, _, _, _, _, _, e⟩
  · exact absurd h1 htag
  · rw [hown] at h0
    exact Bool.noConfusion h0
  · rw [htype] at h2
    exact Bool.noConfusion h2
  · rw [hproto] at hb
    exact Bool.noConfusion hb.1
  · rw [hp] at hp2
    exact Option.noConfusion hp2
  · rw [hp] at hp2
    have hfs : fields = fs := Option.some.inj hp2
    subst hfs
    have hg2 : g ∈ componentReserved := by
      simpa using List.find?_some hg
    exact absurd hg2 (hres g (List.mem_of_find?_eq_some hg))
  · exact e

theorem registerComponent_of_not_thrown (s : Runtime) (k : ClassRef) (spinup : Option Nat)
    (h : (registerComponent s k spinup).thrown = none) :
    effectiveName (s.klass k) ∉ s.registry.tags ∧
    mapHas s.registry.types "hasOwnProperty" = false ∧
    mapHas s.registry.types (effectiveName (s.klass k)) = false ∧
    (registerComponent s k spinup).state =
      installPool (allocated (renameKlass s k) k (effectiveName (s.klass k)))
        (effectiveName (s.klass k)) spinup := by
  rcases registerComponent_cases s k spinup with
    ⟨_, e⟩ | ⟨_, _, e⟩ | ⟨_, _, _, e⟩ | ⟨_, _, _, _, e⟩ | ⟨_, _, _, _, _, e⟩ |
    ⟨_, _, _, _, _, _, _, _, e⟩ | ⟨_, h1, h0, h2, _, _, _, e⟩
  · rw [e] at h
    simp at h
  · rw [e] at h
    simp at h
  · rw [e] at h
    simp at h
  · rw [e] at h
    simp at h
  · rw [e] at h
    simp at h
  · rw [e] at h
    simp at h
  · rw [e]
    exact ⟨h1, h0, h2, rfl⟩

/-- C11, as stated: `Health` is given bit-index 1 in registry `0`; registering the same class in
registry `1` sets its `bitdigit` to 0, and so does registering it again in registry `0` after
`clear()`. -/
theorem C11_later_registration_overwrites_bitdigit :
    ((Realm.run (Realm.fresh sampleKlass sampleWorld)
      [(0, Call.registerComponent 5 none), (0, Call.registerComponent 1 none)]).klass 1
      ).bitdigit = some 1 ∧
    ((Realm.run (Realm.fresh sampleKlass sampleWorld)
      [(0, Call.registerComponent 5 none), (0, Call.registerComponent 1 none),
       (1, Call.registerComponent 1 none)]).klass 1).bitdigit = some 0 ∧
    ((Realm.run (Realm.fresh sampleKlass sampleWorld)
      [(0, Call.registerComponent 5 none), (0, Call.registerComponent 1 none),
       (0, Call.clear), (0, Call.registerComponent 1 none)]).klass 1).bitdigit = some 0 := by
  refine ⟨?_, ?_, ?_⟩ <;> decide

/-- C11, amended: the `bitdigit` of a class is changed by nothing but a `registerComponent` of
that class. Every other call on any registry (`registerTags`, `addWorld`, `clear`,
`registerComponent` of another class) leaves it as it is, and so does a `registerComponent` of
the class that throws a duplicate-name error; a `registerComponent` of the class that succeeds
sets it to the `componentNum` that registry had before the call. -/
theorem C11_bitdigit_set_at_each_registration (m : Realm) (r : RegistryRef) (c : Call)
    (k : ClassRef) :
    ((∀ spinup, c ≠ Call.registerComponent k spinup) →
      ((m.call r c).klass k).bitdigit = (m.klass k).bitdigit) ∧
    (∀ spinup, c = Call.registerComponent k spinup →
      ((effectiveName (m.klass k) ∈ (m.registries r).tags ∨
          mapHas (m.registries r).types (effectiveName (m.klass k)) = true) →
        ((m.call r c).klass k).bitdigit = (m.klass k).bitdigit) ∧
      ((registerComponent (m.view r) k spinup).thrown = none →
        ((m.call r c).klass k).bitdigit = some (m.registries r).componentNum)) := by
  constructor
  · intro hc
    cases c with
    | registerComponent k2 spinup =>
      have hne : k ≠ k2 := by
        intro e
        exact hc spinup (by rw [e])
      simp only [Realm.call, Call.apply]
      rw [registerComponent_klass_of_ne _ _ _ _ hne]
      rfl
    | registerTags tags =>
      simp only [Realm.call, Call.apply]
      rw [registerTags_klass]
      rfl
    | addWorld w => rfl
    | clear => rfl
  · intro spinup hc
    subst hc
    constructor
    · intro hdup
      have h := (registerComponent_cases (m.view r) k spinup)
      simp only [Realm.call, Call.apply]
      rcases h with ⟨_, e⟩ | ⟨_, _, e⟩ | ⟨_, _, _, e⟩ | ⟨h1, _, h2, _⟩ | ⟨h1, _, h2, _⟩ |
        ⟨_, _, h1, _, h2, _⟩ | ⟨_, h1, _, h2, _⟩
      · rw [e]
        simp [renameKlass, applyTypeName_bitdigit, Realm.view]
      · rw [e]
        simp [renameKlass, applyTypeName_bitdigit, Realm.view]
      · rw [e]
        simp [renameKlass, applyTypeName_bitdigit, Realm.view]
      all_goals
        rcases hdup with hd | hd
        · exact absurd hd h1
        · have h3 : mapHas (m.registries r).types (effectiveName (m.klass k)) = false := h2
          rw [h3] at hd
          exact Bool.noConfusion hd
    · intro hok
      obtain ⟨_, _, _, e⟩ := registerComponent_of_not_thrown (m.view r) k spinup hok
      simp only [Realm.call, Call.apply]
      rw [e]
      have := allocated_klass (m.view r) k (effectiveName ((m.view r).klass k))
      simp only [installPool]
      rw [this]
      rfl

/-- C11, amended, at the registration of `Health` in a second registry, where the first
registry has two component types and the second none. -/
theorem C11_bitdigit_set_at_each_registration_witness :
    (registerComponent
      ((Realm.run (Realm.fresh sampleKlass sampleWorld)
        [(0, Call.registerComponent 5 none), (0, Call.registerComponent 1 none)]).view 1)
      1 none).thrown = none ∧
    (((Realm.run (Realm.fresh sampleKlass sampleWorld)
        [(0, Call.registerComponent 5 none), (0, Call.registerComponent 1 none)]).call 1
          (Call.registerComponent 1 none)).klass 1).bitdigit = some 0 ∧
    (((Realm.run (Realm.fresh sampleKlass sampleWorld)
        [(0, Call.registerComponent 5 none), (0, Call.registerComponent 1 none)]).call 1
          (Call.registerTags ["NPC"])).klass 1).bitdigit = some 1 :=
  ⟨by decide,
   ((C11_bitdigit_set_at_each_registration
      (Realm.run (Realm.fresh sampleKlass sampleWorld)
        [(0, Call.registerComponent 5 none), (0, Call.registerComponent 1 none)])
      1 (Call.registerComponent 1 none) 1).2 none rfl).2 (by decide),
   (C11_bitdigit_set_at_each_registration
      (Realm.run (Realm.fresh sampleKlass sampleWorld)
        [(0, Call.registerComponent 5 none), (0, Call.registerComponent 1 none)])
      1 (Call.registerTags ["NPC"]) 1).1 (by intro spinup h; exact Call.noConfusion h)⟩

/-- C12: after `clear()` the registry has no types, no names, no bit-indices, no pools and no
tags, and `componentNum` is 0; the set of attached worlds and every world object (hence every
index slot it has) are what they were. -/
theorem C12_clear_wipes_types_and_keeps_worlds (s : Runtime) :
    (clear s).registry.types = [] ∧
    (clear s).registry.typeset = [] ∧
    (clear s).registry.typenum = [] ∧
    (clear s).registry.pool = [] ∧
    (clear s).registry.tags = [] ∧
    (clear s).registry.componentNum = 0 ∧
    (clear s).registry.worlds = s.registry.worlds ∧
    (clear s).world = s.world :=
  ⟨rfl, rfl, rfl, rfl, rfl, rfl, rfl, rfl⟩

/-! ### The name a class is registered under -/

theorem effectiveName_of_typeName (k : Klass) (T : String) (hT : k.typeName = some T)
    (hne : T ≠ "") : effectiveName k = T := by
  unfold effectiveName applyTypeName
  rw [hT]
  by_cases h : k.name = T
  · simp [h]
  · simp [h, hne]

theorem effectiveName_of_no_typeName (k : Klass)
    (h : k.typeName = none ∨ k.typeName = some "") : effectiveName k = k.name := by
  unfold effectiveName applyTypeName
  rcases h with h | h <;> simp [h]

/-- C13, as stated: a class with type name `__proto__` is registered without error, and so is
the next class whose effective name is `__proto__`; a class `Guard` with type name
`hasOwnProperty` is registered without error, and afterwards a second class called `Guard`
cannot be registered although `Guard` is not a name of the registry; and once the name
`__proto__` is registered, after a class `length` with type name `Size` is registered, a second
class called `length` cannot be registered either. -/
theorem C13_special_type_names :
    (sampleFresh.klass 10).typeName = some "__proto__" ∧
    (sampleFresh.klass 10).name = "Chain" ∧
    (registerComponent sampleFresh 10 none).thrown = none ∧
    effectiveName ((registerComponent sampleFresh 10 none).state.klass 9) = "__proto__" ∧
    (registerComponent (registerComponent sampleFresh 10 none).state 9 none).thrown = none ∧
    (sampleFresh.klass 11).typeName = some "hasOwnProperty" ∧
    (sampleFresh.klass 11).name = "Guard" ∧
    (registerComponent sampleFresh 11 none).thrown = none ∧
    "Guard" ∉ (registerComponent sampleFresh 11 none).state.registry.typeset ∧
    effectiveName ((registerComponent sampleFresh 11 none).state.klass 12) = "Guard" ∧
    (registerComponent (registerComponent sampleFresh 11 none).state 12 none).thrown
      = some RegError.classCalledWithoutNew ∧
    ((runCalls sampleFresh [Call.registerComponent 9 none]).klass 14).typeName
      = some "Size" ∧
    ((runCalls sampleFresh [Call.registerComponent 9 none]).klass 14).name = "length" ∧
    (registerComponent (runCalls sampleFresh [Call.registerComponent 9 none]) 14 none).thrown
      = none ∧
    "length" ∉ (registerComponent (runCalls sampleFresh [Call.registerComponent 9 none])
      14 none).state.registry.typeset ∧
    (registerComponent
      (registerComponent (runCalls sampleFresh [Call.registerComponent 9 none]) 14 none).state
      13 none).thrown = some (RegError.readOnlyProperty "length") := by
  refine ⟨rfl, rfl, ?_, ?_, ?_, rfl, rfl, ?_, ?_, ?_, ?_, ?_, ?_, ?_, ?_, ?_⟩ <;> decide

/-- C13, amended: in a registry where no class has been registered under the name `__proto__`,
a class with a non-empty `typeName` `T` different from its class name `N`, `T` being neither
`__proto__` nor `hasOwnProperty`, is registered under `T`: after a successful
`registerComponent`, `T` is in `typeset`, `types[T]` is the class and `typenum[T]` is the
bit-index given, while the entries of `N` in `typeset`, `types`, `typenum` and `tags` are what
they were; every later `registerComponent` of a class whose effective name is `T` throws; and
if `N` was free it still is, so that a class with effective name `N`, a schema and no reserved
field registers without error. A class without `typeName`, or with an empty one, is registered
under its class name. -/
theorem C13_registered_under_typeName (s : Runtime) (k : ClassRef) (spinup : Option Nat)
    (T : String) (hT : (s.klass k).typeName = some T) (hne : T ≠ "")
    (hN : (s.klass k).name ≠ T) (hTproto : T ≠ "__proto__") (hThas : T ≠ "hasOwnProperty")
    (hproto : s.registry.typesProto = none)
    (hok : (registerComponent s k spinup).thrown = none) :
    effectiveName (s.klass k) = T ∧
    T ∈ (registerComponent s k spinup).state.registry.typeset ∧
    mapGet (registerComponent s k spinup).state.registry.types T = some k ∧
    mapGet (registerComponent s k spinup).state.registry.typenum T
      = some s.registry.componentNum ∧
    ((s.klass k).name ∈ (registerComponent s k spinup).state.registry.typeset ↔
      (s.klass k).name ∈ s.registry.typeset) ∧
    mapGet (registerComponent s k spinup).state.registry.types (s.klass k).name
      = mapGet s.registry.types (s.klass k).name ∧
    mapGet (registerComponent s k spinup).state.registry.typenum (s.klass k).name
      = mapGet s.registry.typenum (s.klass k).name ∧
    (registerComponent s k spinup).state.registry.tags = s.registry.tags ∧
    (∀ k2 spinup2, effectiveName ((registerComponent s k spinup).state.klass k2) = T →
      (registerComponent (registerComponent s k spinup).state k2 spinup2).thrown ≠ none) ∧
    ((s.klass k).name ∉ s.registry.tags → mapHas s.registry.types (s.klass k).name = false →
      ∀ k2 spinup2 fields,
        effectiveName ((registerComponent s k spinup).state.klass k2) = (s.klass k).name →
        ((registerComponent s k spinup).state.klass k2).properties = some fields →
        (∀ f ∈ fields, f ∉ componentReserved) →
        (registerComponent (registerComponent s k spinup).state k2 spinup2).thrown = none) ∧
    (∀ kl : Klass, (kl.typeName = none ∨ kl.typeName = some "") →
      effectiveName kl = kl.name) := by
  have hname : effectiveName (s.klass k) = T := effectiveName_of_typeName _ T hT hne
  obtain ⟨_, hown, _, e⟩ := registerComponent_of_not_thrown s k spinup hok
  rw [hname] at e
  rw [e]
  have htypes : ∀ n, mapHas (installPool (allocated (renameKlass s k) k T) T
      spinup).registry.types n = (decide (n = T) || mapHas s.registry.types n) := by
    intro n
    simp [installPool, allocated, renameKlass, mapHas_mapSet, hTproto]
  have hproto2 : (installPool (allocated (renameKlass s k) k T) T
      spinup).registry.typesProto = none := by
    simp [installPool, allocated, renameKlass, hTproto, hproto]
  refine ⟨hname, ?_, ?_, ?_, ?_, ?_, ?_, rfl, ?_, ?_, ?_⟩
  · simp [installPool, allocated, renameKlass, mem_setAdd]
  · simp [installPool, allocated, renameKlass, mapGet_mapSet_self, hTproto]
  · simp [installPool, allocated, renameKlass, mapGet_mapSet_self]
  · simp [installPool, allocated, renameKlass, mem_setAdd, hN]
  · simp [installPool, allocated, renameKlass, mapGet_mapSet_of_ne _ _ _ _ hN, hTproto]
  · simp [installPool, allocated, renameKlass, mapGet_mapSet_of_ne _ _ _ _ hN]
  · intro k2 spinup2 hk2
    refine (registerComponent_duplicate_leaves_state _ k2 spinup2 (Or.inr ?_)).1
    rw [hk2, htypes]
    simp
  · intro hfreeTag hfreeType k2 spinup2 fields hk2 hp hres
    have hThas2 : ¬ "hasOwnProperty" = T := fun h => hThas h.symm
    have hsucc := registerComponent_succeeds
      (installPool (allocated (renameKlass s k) k T) T spinup) k2 spinup2 fields
      (by rw [htypes]; simp [hThas2, hown]) hproto2 hp hres
      (by rw [hk2]; exact hfreeTag)
      (by rw [hk2, htypes]; simp [hN, hfreeType])
    rw [hsucc]
  · intro kl h
    exact effectiveName_of_no_typeName kl h

/-- C13, amended, at `Color` with type name `Colour` on a fresh registry: it is registered as
`Colour`, `Color` is not in `typeset`, registering the class `Colour` afterwards throws, and
registering another class called `Color` does not. -/
theorem C13_registered_under_typeName_witness :
    (sampleFresh.klass 2).typeName = some "Colour" ∧
    (sampleFresh.klass 2).name = "Color" ∧
    sampleFresh.registry.typesProto = none ∧
    (registerComponent sampleFresh 2 none).thrown = none ∧
    "Colour" ∈ (registerComponent sampleFresh 2 none).state.registry.typeset ∧
    ("Color" ∈ (registerComponent sampleFresh 2 none).state.registry.typeset ↔
      "Color" ∈ sampleFresh.registry.typeset) ∧
    (registerComponent (registerComponent sampleFresh 2 none).state 6 none).thrown ≠ none ∧
    (registerComponent (registerComponent sampleFresh 2 none).state 7 none).thrown = none :=
  ⟨rfl, rfl, rfl, by decide,
   (C13_registered_under_typeName sampleFresh 2 none "Colour" rfl (by decide) (by decide)
      (by decide) (by decide) rfl (by decide)).2.1,
   (C13_registered_under_typeName sampleFresh 2 none "Colour" rfl (by decide) (by decide)
      (by decide) (by decide) rfl (by decide)).2.2.2.2.1,
   (C13_registered_under_typeName sampleFresh 2 none "Colour" rfl (by decide) (by decide)
      (by decide) (by decide) rfl (by decide)).2.2.2.2.2.2.2.2.1 6 none (by decide),
   (C13_registered_under_typeName sampleFresh 2 none "Colour" rfl (by decide) (by decide)
      (by decide) (by decide) rfl (by decide)).2.2.2.2.2.2.2.2.2.1 (by decide) (by decide)
      7 none ["r", "g", "b"] (by decide) (by decide) (by decide)⟩

/-! ### Consistency of the registry -/

theorem registryWf_fresh : RegistryWf ComponentRegistry.fresh := by
  constructor <;> simp [ComponentRegistry.fresh, mapHas, mapGet]

/-- Adding a name that is not in `typeset` keeps the relation between `typeset`, `typenum` and
`componentNum`. -/
theorem registryWf_core_add (ts : List String) (tn : List (String × Nat)) (cn : Nat)
    (name : String)
    (hkeys : ∀ n, n ∈ ts ↔ mapHas tn n = true) (hnodup : ts.Nodup) (hcount : cn = ts.length)
    (hidx : ∀ i, i < cn ↔ ∃ n, mapGet tn n = some i) (hfree : name ∉ ts) :
    (∀ n, n ∈ setAdd ts name ↔ mapHas (mapSet tn name cn) n = true) ∧
    (setAdd ts name).Nodup ∧
    cn + 1 = (setAdd ts name).length ∧
    (∀ i, i < cn + 1 ↔ ∃ n, mapGet (mapSet tn name cn) n = some i) := by
  refine ⟨?_, ?_, ?_, ?_⟩
  · intro n
    rw [mem_setAdd, mapHas_mapSet, hkeys n]
    simp only [Bool.or_eq_true, decide_eq_true_eq]
    exact Or.comm
  · rw [setAdd_of_not_mem _ _ hfree]
    exact List.Nodup.append hnodup (List.nodup_singleton _) (by simpa using hfree)
  · rw [setAdd_of_not_mem _ _ hfree]
    simp [hcount]
  · intro i
    constructor
    · intro hi
      by_cases h : i = cn
      · exact ⟨name, by rw [h, mapGet_mapSet_self]⟩
      · obtain ⟨n, hn⟩ := (hidx i).mp (by omega)
        have hne : n ≠ name := by
          intro e
          apply hfree
          rw [← e, hkeys n]
          simp [mapHas, hn]
        exact ⟨n, by rw [mapGet_mapSet_of_ne _ _ _ _ hne]; exact hn⟩
    · rintro ⟨n, hn⟩
      by_cases hne : n = name
      · subst hne
        rw [mapGet_mapSet_self] at hn
        have : cn = i := Option.some.inj hn
        omega
      · rw [mapGet_mapSet_of_ne _ _ _ _ hne] at hn
        have := (hidx i).mpr ⟨n, hn⟩
        omega

theorem registryWf_allocated (s : Runtime) (k : ClassRef) (name : String)
    (h : RegistryWf s.registry) (h1 : name ∉ s.registry.tags)
    (h2 : mapHas s.registry.types name = false) (hn : name ≠ "__proto__") :
    RegistryWf (allocated s k name).registry := by
  have hfree : name ∉ s.registry.typeset := by
    intro hmem
    rcases (h.union name).mp hmem with h3 | h3
    · rw [h2] at h3
      exact Bool.noConfusion h3
    · exact h1 h3
  obtain ⟨c1, c2, c3, c4⟩ := registryWf_core_add _ _ _ name h.typenumKeys h.nodup h.count
    h.indices hfree
  refine ⟨c1, ?_, ?_, c2, c3, c4⟩
  · intro n
    simp only [allocated, if_neg hn, mem_setAdd, mapHas_mapSet, Bool.or_eq_true,
      decide_eq_true_eq]
    rw [h.union n]
    tauto
  · intro n
    simp only [allocated, if_neg hn, mapHas_mapSet, Bool.or_eq_true, decide_eq_true_eq]
    rintro ⟨h3 | h3, h4⟩
    · exact h1 (h3 ▸ h4)
    · exact h.disjoint n ⟨h3, h4⟩

theorem registryWf_registerTag (s : Runtime) (tag : String)
    (h : RegistryWf s.registry) (hfree : tag ∉ s.registry.typeset) :
    RegistryWf (registerTag s tag).registry := by
  obtain ⟨c1, c2, c3, c4⟩ := registryWf_core_add _ _ _ tag h.typenumKeys h.nodup h.count
    h.indices hfree
  refine ⟨c1, ?_, ?_, c2, c3, c4⟩
  · intro n
    simp only [registerTag, mem_setAdd]
    rw [h.union n]
    tauto
  · intro n
    simp only [registerTag, mem_setAdd]
    rintro ⟨h3, h4 | h4⟩
    · exact h.disjoint n ⟨h3, h4⟩
    · apply hfree
      rw [← h4, h.union n]
      exact Or.inl h3

theorem registryWf_apply (s : Runtime) (c : Call) (h : RegistryWf s.registry)
    (hproto : s.registry.typesProto = none)
    (hc : ∀ k spinup, c = Call.registerComponent k spinup →
      effectiveName (s.klass k) ≠ "__proto__") :
    RegistryWf (c.apply s).registry := by
  cases c with
  | registerComponent k spinup =>
    have hn := hc k spinup rfl
    have hr : RegistryWf (renameKlass s k).registry := h
    simp only [Call.apply]
    rcases registerComponent_cases s k spinup with
      ⟨_, e⟩ | ⟨_, _, e⟩ | ⟨_, _, _, e⟩ | ⟨_, _, _, hb, _⟩ | ⟨h1, _, h2, _, _, e⟩ |
      ⟨_, _, h1, _, h2, _, _, _, e⟩ | ⟨_, h1, _, h2, _, _, _, e⟩
    · rw [e]; exact hr
    · rw [e]; exact hr
    · rw [e]; exact hr
    · rw [hproto] at hb
      exact Bool.noConfusion hb.1
    · rw [e]; exact registryWf_allocated _ _ _ hr h1 h2 hn
    · rw [e]; exact registryWf_allocated _ _ _ hr h1 h2 hn
    · rw [e]
      have := registryWf_allocated _ k _ hr h1 h2 hn
      exact ⟨this.typenumKeys, this.union, this.disjoint, this.nodup, this.count,
        this.indices⟩
  | registerTags tags =>
    exact registerTags_preserves (fun t => RegistryWf t.registry) tags
      (fun t tag _ hfree ht => registryWf_registerTag t tag ht hfree) s h
  | addWorld w => exact ⟨h.typenumKeys, h.union, h.disjoint, h.nodup, h.count, h.indices⟩
  | clear => constructor <;> simp [Call.apply, clear, mapHas, mapGet]

theorem registryWf_runCalls (s : Runtime) (calls : List Call) (h : RegistryWf s.registry)
    (hproto : s.registry.typesProto = none) (hnames : NoProtoName s.klass calls) :
    RegistryWf (runCalls s calls).registry := by
  induction calls generalizing s with
  | nil => exact h
  | cons c rest ih =>
    exact ih (c.apply s)
      (registryWf_apply s c h hproto (noProtoName_head s.klass c rest hnames))
      (apply_typesProto s c hproto (noProtoName_head s.klass c rest hnames))
      (noProtoName_tail s c rest hnames)

/-- C18, as stated: after one class is registered under the name `__proto__`, the name is in
`typeset` but is neither an own key of `types` nor a tag; after a second class is registered
under that name, `componentNum` is 2 while `typeset` has one name, the name has bit-index 1 and
no name has bit-index 0. -/
theorem C18_proto_name_breaks_consistency :
    (runCalls sampleFresh [Call.registerComponent 9 none]).registry.typeset
      = ["__proto__"] ∧
    mapHas (runCalls sampleFresh [Call.registerComponent 9 none]).registry.types "__proto__"
      = false ∧
    "__proto__" ∉ (runCalls sampleFresh [Call.registerComponent 9 none]).registry.tags ∧
    (runCalls sampleFresh [Call.registerComponent 9 none, Call.registerComponent 10 none]
      ).registry.typeset = ["__proto__"] ∧
    (runCalls sampleFresh [Call.registerComponent 9 none, Call.registerComponent 10 none]
      ).registry.componentNum = 2 ∧
    (runCalls sampleFresh [Call.registerComponent 9 none, Call.registerComponent 10 none]
      ).registry.typenum = [("__proto__", 1)] := by
  refine ⟨?_, ?_, ?_, ?_, ?_, ?_⟩ <;> decide

/-- C18, amended: in every state reached from a fresh registry by any sequence of
`registerComponent`, `registerTags`, `addWorld` and `clear` calls (throwing calls included) in
which no class is registered under the name `__proto__`, `typeset` is the key set of `typenum`;
a name is in `typeset` exactly when it is a key of `types` or a member of `tags`, and never
both; `typeset` lists each name once and `componentNum` is the number of its names; and a
number is the bit-index of some name exactly when it is below `componentNum`. -/
theorem C18_registry_is_consistent (klass : ClassRef → Klass) (world : WorldRef → World)
    (calls : List Call) (hnames : NoProtoName klass calls) :
    (∀ n, n ∈ (runCalls (Runtime.fresh klass world) calls).registry.typeset ↔
      mapHas (runCalls (Runtime.fresh klass world) calls).registry.typenum n = true) ∧
    (∀ n, n ∈ (runCalls (Runtime.fresh klass world) calls).registry.typeset ↔
      (mapHas (runCalls (Runtime.fresh klass world) calls).registry.types n = true ∨
        n ∈ (runCalls (Runtime.fresh klass world) calls).registry.tags)) ∧
    (∀ n, ¬ (mapHas (runCalls (Runtime.fresh klass world) calls).registry.types n = true ∧
        n ∈ (runCalls (Runtime.fresh klass world) calls).registry.tags)) ∧
    (runCalls (Runtime.fresh klass world) calls).registry.typeset.Nodup ∧
    (runCalls (Runtime.fresh klass world) calls).registry.componentNum
      = (runCalls (Runtime.fresh klass world) calls).registry.typeset.length ∧
    (∀ i, i < (runCalls (Runtime.fresh klass world) calls).registry.componentNum ↔
      ∃ n, mapGet (runCalls (Runtime.fresh klass world) calls).registry.typenum n = some i) := by
  have h := registryWf_runCalls (Runtime.fresh klass world) calls registryWf_fresh rfl hnames
  exact ⟨h.typenumKeys, h.union, h.disjoint, h.nodup, h.count, h.indices⟩

/-- C18, amended, at a run with a registration that throws at the schema check, a
`registerTags` that throws at its second name, a `clear`, and registrations of a class called
`hasOwnProperty` and of a tag called `__proto__`. -/
theorem C18_registry_is_consistent_witness :
    NoProtoName sampleKlass
      [Call.registerTags ["NPC"], Call.clear, Call.addWorld 0, Call.registerComponent 0 none,
       Call.registerComponent 8 none, Call.registerTags ["__proto__", "FakeTag", "Enemy"]] ∧
    (runCalls sampleFresh
      [Call.registerTags ["NPC"], Call.clear, Call.addWorld 0, Call.registerComponent 0 none,
       Call.registerComponent 8 none, Call.registerTags ["__proto__", "FakeTag", "Enemy"]]
      ).registry.typeset = ["FakeTag", "hasOwnProperty", "__proto__"] ∧
    (runCalls sampleFresh
      [Call.registerTags ["NPC"], Call.clear, Call.addWorld 0, Call.registerComponent 0 none,
       Call.registerComponent 8 none, Call.registerTags ["__proto__", "FakeTag", "Enemy"]]
      ).registry.componentNum
      = (runCalls sampleFresh
      [Call.registerTags ["NPC"], Call.clear, Call.addWorld 0, Call.registerComponent 0 none,
       Call.registerComponent 8 none, Call.registerTags ["__proto__", "FakeTag", "Enemy"]]
      ).registry.typeset.length :=
  ⟨by
    intro k spinup hmem
    simp only [List.mem_cons, Call.registerComponent.injEq, reduceCtorEq, List.mem_singleton,
      List.not_mem_nil, or_false, false_or] at hmem
    rcases hmem with ⟨rfl, _⟩ | ⟨rfl, _⟩ <;> decide,
   by decide,
   (C18_registry_is_consistent sampleKlass sampleWorld
    [Call.registerTags ["NPC"], Call.clear, Call.addWorld 0, Call.registerComponent 0 none,
     Call.registerComponent 8 none, Call.registerTags ["__proto__", "FakeTag", "Enemy"]]
    (by
      intro k spinup hmem
      simp only [List.mem_cons, Call.registerComponent.injEq, reduceCtorEq, List.mem_singleton,
        List.not_mem_nil, or_false, false_or] at hmem
      rcases hmem with ⟨rfl, _⟩ | ⟨rfl, _⟩ <;> decide)).2.2.2.2.1⟩

/-! ### One pool per component type -/

theorem poolsMatchTypes_apply (s : Runtime) (c : Call) (hc : c.schemaError s = false)
    (hproto : s.registry.typesProto = none)
    (hname : ∀ k spinup, c = Call.registerComponent k spinup →
      effectiveName (s.klass k) ≠ "__proto__")
    (h : PoolsMatchTypes s.registry) : PoolsMatchTypes (c.apply s).registry := by
  cases c with
  | registerComponent k spinup =>
    have hn := hname k spinup rfl
    simp only [Call.schemaError] at hc
    simp only [Call.apply]
    rcases registerComponent_cases s k spinup with
      ⟨_, e⟩ | ⟨_, _, e⟩ | ⟨_, _, _, e⟩ | ⟨_, _, _, hb, _⟩ | ⟨_, _, _, _, _, e⟩ |
      ⟨_, _, _, _, _, _, _, _, e⟩ | ⟨_, _, _, _, _, _, _, e⟩
    · rw [e]
      exact h
    · rw [e]
      exact h
    · rw [e]
      exact h
    · rw [hproto] at hb
      exact Bool.noConfusion hb.1
    · rw [e] at hc
      simp at hc
    · rw [e] at hc
      simp at hc
    · rw [e]
      intro n
      have hpt : mapHas (renameKlass s k).registry.pool n
          = mapHas (renameKlass s k).registry.types n := h n
      simp only [installPool, allocated, if_neg hn, mapHas_mapSet, hpt]
  | registerTags tags =>
    intro n
    simp only [Call.apply, registerTags_pool, registerTags_types]
    exact h n
  | addWorld w => exact h
  | clear =>
    intro n
    simp [Call.apply, clear, mapHas, mapGet]

/-- The part of C14 that the code keeps: as long as no `registerComponent` call ends in a schema
error and no class is registered under the name `__proto__`, the key set of `pool` is the key
set of `types` after any sequence of calls. -/
theorem poolsMatchTypes_runCalls (s : Runtime) (calls : List Call)
    (hc : noSchemaError s calls) (hnames : NoProtoName s.klass calls)
    (hproto : s.registry.typesProto = none) (h : PoolsMatchTypes s.registry) :
    PoolsMatchTypes (runCalls s calls).registry := by
  induction calls generalizing s with
  | nil => exact h
  | cons c rest ih =>
    exact ih (c.apply s) hc.2 (noProtoName_tail s c rest hnames)
      (apply_typesProto s c hproto (noProtoName_head s.klass c rest hnames))
      (poolsMatchTypes_apply s c hc.1 hproto (noProtoName_head s.klass c rest hnames) h)

/-- C14: on a fresh registry, `registerComponent(FakeTag)` for a class without `properties`
throws; afterwards `FakeTag` is a key of `types` but not of `pool`. The same happens for the
class `Bad`, whose schema has the reserved field `_setup`. -/
theorem C14_schema_error_leaves_type_without_pool :
    (registerComponent sampleFresh 0 none).thrown = some RegError.missingProperties ∧
    mapHas (runCalls sampleFresh [Call.registerComponent 0 none]).registry.types "FakeTag"
      = true ∧
    mapHas (runCalls sampleFresh [Call.registerComponent 0 none]).registry.pool "FakeTag"
      = false ∧
    mapHas (runCalls sampleFresh [Call.registerComponent 4 none]).registry.types "Bad"
      = true ∧
    mapHas (runCalls sampleFresh [Call.registerComponent 4 none]).registry.pool "Bad"
      = false := by
  refine ⟨?_, ?_, ?_, ?_, ?_⟩ <;> decide

/-! ### The staging buffer of a system -/

theorem runSystem_recvChanges {χ : Type} (sys : System χ) (received : List χ) :
    runSystem sys (received.map SystemCall.recvChange) =
      { sys with _stagedChanges := sys._stagedChanges ++ received } := by
  induction received generalizing sys with
  | nil => simp [runSystem]
  | cons c rest ih =>
    have step : runSystem sys ((c :: rest).map SystemCall.recvChange)
        = runSystem (sys._recvChange c) (rest.map SystemCall.recvChange) := rfl
    rw [step, ih]
    simp [System._recvChange]

/-- C15: `_preUpdate()` makes `changes` the list that was staged and empties `_stagedChanges`.
Hence, when the notifications `received` arrive after a `_preUpdate`, in this order, the next
`_preUpdate` leaves `changes` equal to `received`, whatever `changes` held before, and
`_stagedChanges` empty. -/
theorem C15_preUpdate_promotes_staged_changes {χ : Type} (sys : System χ)
    (received : List χ) :
    sys._preUpdate.changes = sys._stagedChanges ∧
    sys._preUpdate._stagedChanges = [] ∧
    (runSystem sys._preUpdate (received.map SystemCall.recvChange))._stagedChanges
      = received ∧
    (runSystem sys._preUpdate (received.map SystemCall.recvChange))._preUpdate.changes
      = received ∧
    (runSystem sys._preUpdate (received.map SystemCall.recvChange))._preUpdate._stagedChanges
      = [] ∧
    sys._preUpdate.queries = sys.queries ∧
    sys._preUpdate.lastTick = sys.lastTick := by
  refine ⟨rfl, rfl, ?_, ?_, rfl, rfl, rfl⟩
  · rw [runSystem_recvChanges]
    simp [System._preUpdate]
  · rw [runSystem_recvChanges]
    simp [System._preUpdate]

theorem observed_then_staged {χ : Type} (sys : System χ) (calls : List (SystemCall χ)) :
    (observedChanges sys calls).flatten ++ (runSystem sys calls)._stagedChanges
      = sys._stagedChanges ++ receivedChanges calls := by
  induction calls generalizing sys with
  | nil => simp [observedChanges, runSystem, receivedChanges]
  | cons c rest ih =>
    cases c with
    | recvChange change =>
      have step : runSystem sys (SystemCall.recvChange change :: rest)
          = runSystem (sys._recvChange change) rest := rfl
      rw [step]
      simp only [observedChanges, receivedChanges]
      rw [ih]
      simp [System._recvChange]
    | preUpdate =>
      have step : runSystem sys (SystemCall.preUpdate :: rest)
          = runSystem sys._preUpdate rest := rfl
      rw [step]
      simp only [observedChanges, receivedChanges, List.flatten_cons, List.append_assoc]
      rw [ih]
      simp [System._preUpdate]

theorem runSystem_append {χ : Type} (sys : System χ) (xs ys : List (SystemCall χ)) :
    runSystem sys (xs ++ ys) = runSystem (runSystem sys xs) ys := by
  simp [runSystem, List.foldl_append]

theorem observedChanges_append {χ : Type} (sys : System χ) (xs ys : List (SystemCall χ)) :
    observedChanges sys (xs ++ ys)
      = observedChanges sys xs ++ observedChanges (runSystem sys xs) ys := by
  induction xs generalizing sys with
  | nil => rfl
  | cons c rest ih =>
    cases c with
    | recvChange change =>
      have step : runSystem sys (SystemCall.recvChange change :: rest)
          = runSystem (sys._recvChange change) rest := rfl
      simp only [List.cons_append, observedChanges, step]
      exact ih _
    | preUpdate =>
      have step : runSystem sys (SystemCall.preUpdate :: rest)
          = runSystem sys._preUpdate rest := rfl
      simp only [List.cons_append, observedChanges, step]
      exact congrArg _ (ih _)

theorem observedChanges_recvChanges {χ : Type} (sys : System χ) (received : List χ) :
    observedChanges sys (received.map SystemCall.recvChange) = [] := by
  induction received generalizing sys with
  | nil => rfl
  | cons c rest ih =>
    simp only [List.map_cons, observedChanges]
    exact ih _

/-- One pass: a `_preUpdate`, then the notifications `received`, then the next `_preUpdate`. -/
theorem pass_after_preUpdate {χ : Type} (sys : System χ) (received : List χ) :
    (runSystem sys ([SystemCall.preUpdate] ++ received.map SystemCall.recvChange
        ++ [SystemCall.preUpdate])).changes = received ∧
    (runSystem sys ([SystemCall.preUpdate] ++ received.map SystemCall.recvChange)).changes
      = sys._stagedChanges ∧
    (runSystem sys ([SystemCall.preUpdate] ++ received.map SystemCall.recvChange)
      )._stagedChanges = received ∧
    observedChanges sys ([SystemCall.preUpdate] ++ received.map SystemCall.recvChange
        ++ [SystemCall.preUpdate]) = [sys._stagedChanges, received] := by
  have h1 : runSystem sys ([SystemCall.preUpdate] ++ received.map SystemCall.recvChange)
      = { sys._preUpdate with _stagedChanges := received } := by
    have step : runSystem sys ([SystemCall.preUpdate] ++ received.map SystemCall.recvChange)
        = runSystem sys._preUpdate (received.map SystemCall.recvChange) := rfl
    rw [step, runSystem_recvChanges]
    simp [System._preUpdate]
  refine ⟨?_, ?_, ?_, ?_⟩
  · rw [runSystem_append, h1]
    rfl
  · rw [h1]
    rfl
  · rw [h1]
  · rw [observedChanges_append, h1]
    have step : observedChanges sys
        ([SystemCall.preUpdate] ++ received.map SystemCall.recvChange)
        = sys._preUpdate.changes
          :: observedChanges sys._preUpdate (received.map SystemCall.recvChange) := rfl
    rw [step, observedChanges_recvChanges]
    rfl

/-- C17: for every sequence of `_recvChange` and `_preUpdate` calls on a freshly constructed
system, the values of `changes` taken right after each `_preUpdate`, concatenated in order and
followed by the final `_stagedChanges`, are the arguments of the `_recvChange` calls in call
order: nothing is lost, repeated or reordered. Each change is visible in the first pass after
it was received and in that pass only: when the notifications `received` arrive after the
sequence and a `_preUpdate`, `changes` does not move while they arrive and they are staged in
order; the next `_preUpdate` makes `changes` exactly `received`, and that is the one batch it
adds to the batches observed; the changes received before the first `_preUpdate` are the
`changes` of the first pass. -/
theorem C17_staging_keeps_every_change_once {χ : Type} (world : WorldRef) (currentTick : Nat)
    (calls : List (SystemCall χ)) (received : List χ) :
    (observedChanges (System.construct world currentTick) calls).flatten
      ++ (runSystem (System.construct world currentTick) calls)._stagedChanges
      = receivedChanges calls ∧
    (runSystem (System.construct world currentTick)
      (received.map SystemCall.recvChange ++ [SystemCall.preUpdate])).changes = received ∧
    (runSystem (System.construct world currentTick)
      (calls ++ ([SystemCall.preUpdate] ++ received.map SystemCall.recvChange
        ++ [SystemCall.preUpdate]))).changes = received ∧
    (runSystem (System.construct world currentTick)
      (calls ++ ([SystemCall.preUpdate] ++ received.map SystemCall.recvChange
        ++ [SystemCall.preUpdate])))._stagedChanges = [] ∧
    (runSystem (System.construct world currentTick)
      (calls ++ ([SystemCall.preUpdate] ++ received.map SystemCall.recvChange))).changes
      = (runSystem (System.construct world currentTick)
          (calls ++ [SystemCall.preUpdate])).changes ∧
    (runSystem (System.construct world currentTick)
      (calls ++ ([SystemCall.preUpdate] ++ received.map SystemCall.recvChange))
      )._stagedChanges = received ∧
    observedChanges (System.construct world currentTick)
      (calls ++ ([SystemCall.preUpdate] ++ received.map SystemCall.recvChange
        ++ [SystemCall.preUpdate]))
      = observedChanges (System.construct world currentTick) (calls ++ [SystemCall.preUpdate])
        ++ [received] := by
  refine ⟨?_, ?_, ?_, ?_, ?_, ?_, ?_⟩
  · rw [observed_then_staged]
    simp [System.construct]
  · rw [runSystem_append, runSystem_recvChanges]
    simp [System.construct, runSystem, SystemCall.apply, System._preUpdate]
  · rw [runSystem_append]
    exact (pass_after_preUpdate _ received).1
  · rw [runSystem_append, runSystem_append]
    rfl
  · have e1 := runSystem_append (System.construct world currentTick) calls
      ([SystemCall.preUpdate] ++ received.map SystemCall.recvChange)
    have e2 := runSystem_append (System.construct world currentTick) calls
      [SystemCall.preUpdate]
    rw [e1, e2]
    exact (pass_after_preUpdate (runSystem (System.construct world currentTick) calls)
      received).2.1
  · rw [runSystem_append]
    exact (pass_after_preUpdate _ received).2.2.1
  · have e1 := observedChanges_append (System.construct world currentTick) calls
      ([SystemCall.preUpdate] ++ received.map SystemCall.recvChange ++ [SystemCall.preUpdate])
    have e2 := observedChanges_append (System.construct world currentTick) calls
      [SystemCall.preUpdate]
    rw [e1, e2, (pass_after_preUpdate (runSystem (System.construct world currentTick) calls)
      received).2.2.2]
    simp [observedChanges, System._preUpdate]

/-! ### The reset of the queries of a system -/

theorem clearQueries_apply {Q : Type} (clearChanges : Q → Q) (heap : QueryRef → Q)
    (queries : List QueryRef) (q : QueryRef) :
    clearQueries clearChanges heap queries q = clearChanges^[queries.count q] (heap q) := by
  induction queries generalizing heap with
  | nil => rfl
  | cons hd tl ih =>
    simp only [clearQueries]
    rw [ih]
    by_cases h : hd = q
    · subst h
      simp [Function.update_same, List.count_cons_self, Function.iterate_succ_apply]
    · have h2 : q ≠ hd := fun e => h e.symm
      have hcount : List.count q (hd :: tl) = List.count q tl := by
        simp [List.count_cons, h]
      rw [hcount]
      simp [Function.update_noteq h2]

/-- C16: `_postUpdate()` calls `clearChanges` once for every entry of `queries`: each query
object ends as `clearChanges` applied to it as many times as it occurs in the list (once when
the entries are distinct, never when it is not in the list), and the system itself, with its
`changes`, `_stagedChanges`, `lastTick` and `queries`, is unchanged. With `clearChanges` as the
specification describes it, every query of the list has empty `added` and `removed`
afterwards. -/
theorem C16_postUpdate_clears_every_query {χ Q : Type} (clearChanges : Q → Q)
    (sys : System χ) (heap : QueryRef → Q) :
    (∀ q, (sys._postUpdate clearChanges heap).2 q
      = clearChanges^[sys.queries.count q] (heap q)) ∧
    (sys.queries.Nodup → ∀ q ∈ sys.queries,
      (sys._postUpdate clearChanges heap).2 q = clearChanges (heap q)) ∧
    (∀ q, q ∉ sys.queries → (sys._postUpdate clearChanges heap).2 q = heap q) ∧
    (sys._postUpdate clearChanges heap).1 = sys ∧
    (∀ (queryHeap : QueryRef → Query), ∀ q ∈ sys.queries,
      ((sys._postUpdate Query.clearChanges queryHeap).2 q).added = [] ∧
      ((sys._postUpdate Query.clearChanges queryHeap).2 q).removed = []) := by
  refine ⟨?_, ?_, ?_, rfl, ?_⟩
  · intro q
    exact clearQueries_apply clearChanges heap sys.queries q
  · intro hnodup q hq
    have h := clearQueries_apply clearChanges heap sys.queries q
    rw [List.count_eq_one_of_mem hnodup hq] at h
    exact h
  · intro q hq
    have h := clearQueries_apply clearChanges heap sys.queries q
    rw [List.count_eq_zero_of_not_mem hq] at h
    exact h
  · intro queryHeap q hq
    have h := clearQueries_apply Query.clearChanges queryHeap sys.queries q
    obtain ⟨m, hm⟩ : ∃ m, sys.queries.count q = m + 1 :=
      Nat.exists_eq_succ_of_ne_zero (Nat.pos_iff_ne_zero.mp (List.count_pos_iff.mpr hq))
    rw [hm, Function.iterate_succ_apply'] at h
    simp only [System._postUpdate]
    rw [h]
    exact ⟨rfl, rfl⟩

end ApeEcs
